import Mathlib

set_option linter.unusedSectionVars false
set_option linter.unreachableTactic false
set_option linter.unusedTactic false

/-!
Shallow embedding of the RingCT-SP23 repository: the toolbox vector
utilities, the Pedersen vector commitment, the Bulletproofs inner-product
argument (IPA) and the Sigma-protocol ring signature (linear variant),
together with theorems checking the specification claims against the code.

Group model: the elliptic-curve group is an arbitrary module `G` over the
scalar field `F`; arkworks `C::msm` is `msm`, affine/projective
conversions are identities.  The Fiat-Shamir transcript and the
`SigmaErrors` enum live in the `toolbox` crate, whose source files are not
part of the snapshot; both are modelled from the spec (sections 4.3
and 7): the transcript is a deterministic challenge oracle `chal` over the
list of absorbed items, and `SigmaErrors` carries the error kinds of the
spec's taxonomy.  `Option::unwrap` on `None`, slice indexing out of
bounds and failed `assert!` macros are modelled by the `RunResult.panic`
outcome.  RNG draws are modelled as indexed draw streams (`rs` for
scalars, `rp` for points); the `vec![rand(rng); k]` macro performs a
single draw and clones it, exactly as in Rust.
-/

/-- Error kinds of the commitment layer, from `ringsignature/src/errors.rs`
(`CommitmentErrors`); the serialization payload is abstracted away. -/
inductive CommitmentErrors where
  | InvalidProver (msg : String)
  | InvalidVerifier (msg : String)
  | InvalidProof (msg : String)
  | InvalidParameters (msg : String)
  | SerializationError
deriving DecidableEq

/-- Modelled from the spec: the `toolbox` crate's `SigmaErrors` enum is
absent from the snapshot (only its use sites are visible); its kinds
follow the spec's section 7 error taxonomy (`InvalidParameters`,
`InvalidProof`, `SerializationError`, `TranscriptError`) plus the wrapper
constructors seen in the analogous `SchnorrErrors` enum of
`ringsignature/src/errors.rs`. -/
inductive SigmaErrors where
  | InvalidProver (msg : String)
  | InvalidVerifier (msg : String)
  | InvalidProof (msg : String)
  | InvalidParameters (msg : String)
  | TranscriptError (msg : String)
  | CommitmentError (e : CommitmentErrors)
  | SerializationError
deriving DecidableEq

deriving instance DecidableEq for Except

/-- Outcome of running a fallible Rust function: `ok` for `Ok`, `err` for
`Err`, and `panic` for a Rust panic (`unwrap` on `None`, slice index out
of bounds, failed `assert!`). -/
inductive RunResult (α : Type) where
  | ok (a : α)
  | err (e : SigmaErrors)
  | panic (msg : String)
deriving DecidableEq

/-- Modelled from the spec: one absorbed transcript item (section 4.3).
The labels are fixed string constants at each call site, identical at
prover and verifier, so they are omitted from the items. -/
inductive TItem (F G : Type) where
  | scalar (s : F)
  | point (p : G)
  | str (m : String)
deriving DecidableEq

section VecUtils

variable {F : Type} [Field F] {G : Type} [AddCommGroup G] [Module F G]
variable [DecidableEq F] [DecidableEq G]

/-- `scalar_product` from `toolbox/src/vec.rs`: elementwise `a_i * c`. -/
def scalar_product (vec_a : List F) (c : F) : List F :=
  vec_a.map (fun a => a * c)

/-- `inner_product` from `toolbox/src/vec.rs`: `Σ a_i * b_i` (Rust asserts
equal lengths; the callers meet that precondition). -/
def inner_product (vec_a vec_b : List F) : F :=
  (List.zipWith (fun a b => a * b) vec_a vec_b).sum

/-- `vec_add` from `toolbox/src/vec.rs`: elementwise sum. -/
def vec_add (vec_a vec_b : List F) : List F :=
  List.zipWith (fun a b => a + b) vec_a vec_b

/-- `vec_split` from `toolbox/src/vec.rs`: split at index `n`. -/
def vec_split (v : List F) (n : Nat) : List F × List F :=
  (v.take n, v.drop n)

/-- `hadamard_product` from `toolbox/src/vec.rs`: elementwise product. -/
def hadamard_product (vec_a vec_b : List F) : List F :=
  List.zipWith (fun a b => a * b) vec_a vec_b

/-- Helper for `generate_powers`: the successor stream starting at `cur`
with step `* y`, truncated to `n` entries (`iter::successors ... take n`). -/
def generate_powers_from (y : F) : Nat → F → List F
  | 0, _ => []
  | n + 1, cur => cur :: generate_powers_from y n (cur * y)

/-- `generate_powers` from `toolbox/src/vec.rs`: `[y, y^2, ..., y^n]`
(starting at `y^1`, not `y^0`). -/
def generate_powers (y : F) (n : Nat) : List F :=
  generate_powers_from y n y

/-- Multi-scalar multiplication `Σ exp_i • base_i` (arkworks `C::msm`);
defined on equal-length inputs, which the reached call sites guarantee
(explicit panic guards model the unchecked call sites). -/
def msm (base : List G) (exp : List F) : G :=
  (List.zipWith (fun (p : G) (s : F) => s • p) base exp).sum

/-- Reordering of a list by a list of indices; stands for the uniformly
random permutation drawn by `SliceRandom::shuffle(thread_rng())`, which is
passed in explicitly. -/
def apply_permutation (sigma : List Nat) (l : List G) : List G :=
  sigma.map (fun i => l.getD i 0)

/-- `shuffle` from `toolbox/src/vec.rs` (identical copy in
`ringsignature/src/utils/vec.rs`): the ring is permuted in place (the
permutation `sigma` stands for the CSPRNG draw) and the indicator vector
of `pk`'s positions in the permuted ring is returned.  The function has no
failure path: when `pk` is absent every indicator entry is `0`. -/
def shuffle (sigma : List Nat) (vec_pk : List G) (pk : G) : List G × List F :=
  let shuffled := apply_permutation sigma vec_pk
  (shuffled, shuffled.map (fun p => if p = pk then (1 : F) else 0))

/-- Rust `usize::is_power_of_two`, by its standard-library semantics
(true exactly on the powers of two; false at `0`). -/
def is_power_of_two (n : Nat) : Bool :=
  2 ^ Nat.log2 n == n

end VecUtils

/-- Pedersen parameters from `ringsignature/src/commitment/structs.rs`:
a blinding generator `h` and the generator vector `vec_g`. -/
structure PedersenParams (G : Type) where
  h : G
  vec_g : List G
deriving DecidableEq

/-- Pedersen opening from `ringsignature/src/commitment/structs.rs`. -/
structure PedersenOpening (F : Type) where
  message : List F
  random : F
deriving DecidableEq

namespace PedersenCommitmentScheme

variable {F : Type} [Field F] {G : Type} [AddCommGroup G] [Module F G]
variable [DecidableEq F] [DecidableEq G]

/-- `PedersenCommitmentScheme::setup` from
`ringsignature/src/commitment/pedersen.rs`: `h` is the curve's
conventional generator `gen0` scaled by a random scalar, and the generator
vector is the Rust expression `vec![C::Affine::rand(rng); supported_size]`,
which draws ONE random point and clones it `supported_size` times.  The
RNG is the pair of draw streams `rs`/`rp` with running counter `c`; the
updated counter is returned alongside the parameters. -/
def setup (rs : Nat → F) (rp : Nat → G) (c : Nat) (gen0 : G) (supported_size : Nat) :
    PedersenParams G × Nat :=
  let h_scalar := rs c
  let gen := rp (c + 1)
  (⟨h_scalar • gen0, List.replicate supported_size gen⟩, c + 2)

/-- `PedersenCommitmentScheme::commit` from
`ringsignature/src/commitment/pedersen.rs`. -/
def commit (params : PedersenParams G) (m : List F) (r : F) : Except CommitmentErrors G :=
  if m.length ≠ params.vec_g.length then
    .error (.InvalidParameters "message length should equal to the generator length")
  else
    .ok (r • params.h + msm params.vec_g m)

/-- `PedersenCommitmentScheme::open` from
`ringsignature/src/commitment/pedersen.rs` (`open` is a Lean keyword, so
the embedding calls it `openOp`). -/
def openOp (m : List F) (r : F) : Except CommitmentErrors (PedersenOpening F) :=
  .ok ⟨m, r⟩

/-- `PedersenCommitmentScheme::verify` from
`ringsignature/src/commitment/pedersen.rs`: recompute and compare. -/
def verify (params : PedersenParams G) (cm : G) (o : PedersenOpening F) :
    Except CommitmentErrors Bool :=
  .ok (decide (o.random • params.h + msm params.vec_g o.message = cm))

end PedersenCommitmentScheme

/-- C10: Pedersen commit returns `g·r + MSM(H, m)` when `|m| = |H|`, an
`InvalidParameters` error when `|m| ≠ |H|`, and the commit/open/verify
round trip returns `Ok(true)`. -/
theorem pedersen_commit_verify_round_trip {F G : Type} [Field F] [AddCommGroup G]
    [Module F G] [DecidableEq F] [DecidableEq G]
    (params : PedersenParams G) (m : List F) (r : F) :
    (m.length = params.vec_g.length →
      PedersenCommitmentScheme.commit params m r = .ok (r • params.h + msm params.vec_g m)) ∧
    (m.length ≠ params.vec_g.length →
      PedersenCommitmentScheme.commit params m r =
        .error (.InvalidParameters "message length should equal to the generator length")) ∧
    (PedersenCommitmentScheme.openOp m r = .ok (⟨m, r⟩ : PedersenOpening F)) ∧
    (m.length = params.vec_g.length →
      ∀ cm, PedersenCommitmentScheme.commit params m r = .ok cm →
        PedersenCommitmentScheme.verify params cm ⟨m, r⟩ = .ok true) := by
  refine ⟨fun hlen => ?_, fun hlen => ?_, rfl, fun hlen cm hcm => ?_⟩
  · simp [PedersenCommitmentScheme.commit, hlen]
  · simp [PedersenCommitmentScheme.commit, hlen]
  · have : cm = r • params.h + msm params.vec_g m := by
      simpa [PedersenCommitmentScheme.commit, hlen] using hcm.symm
    simp [PedersenCommitmentScheme.verify, this]

instance : Fact (Nat.Prime 5) := ⟨by norm_num⟩

/-- C10 witness: the round trip on a concrete instance over `ZMod 5`. -/
theorem pedersen_commit_verify_round_trip_witness :
    (([(3 : ZMod 5), 1].length = [(2 : ZMod 5), 4].length) ∧
      PedersenCommitmentScheme.verify (⟨(1 : ZMod 5), [(2 : ZMod 5), 4]⟩ : PedersenParams (ZMod 5))
        ((2 : ZMod 5) • (1 : ZMod 5) + msm [(2 : ZMod 5), 4] [(3 : ZMod 5), 1])
        ⟨[(3 : ZMod 5), 1], 2⟩ = .ok true) := by
  refine ⟨by decide, ?_⟩
  exact (pedersen_commit_verify_round_trip
      (⟨(1 : ZMod 5), [(2 : ZMod 5), 4]⟩ : PedersenParams (ZMod 5)) [(3 : ZMod 5), 1] 2).2.2.2
    (by decide) _ (by decide)

/-- Indicator images count: the number of `1` entries of the indicator
vector equals the number of occurrences of `pk`. -/
theorem count_one_map_indicator {F G : Type} [Field F] [DecidableEq F] [DecidableEq G]
    (pk : G) (l : List G) :
    (l.map (fun p => if p = pk then (1 : F) else 0)).count 1 = l.count pk := by
  induction l with
  | nil => rfl
  | cons a l ih =>
    by_cases ha : a = pk
    · simp [List.count_cons, ha, ih]
    · simp [List.count_cons, ha, ih, (one_ne_zero (α := F)).symm]

/-- C4 (amended): `shuffle` permutes the ring (the permutation standing
for the CSPRNG draw) and returns the indicator vector `b` of `pk`'s
positions in the permuted ring: `b_i = 1` exactly where the permuted ring
holds `pk` and `0` elsewhere, the number of `1` entries equals the number
of occurrences of `pk` (so Hamming weight 1 when `pk` occurs exactly
once), and when `pk` is absent the returned vector is all zeroes — the
function returns normally instead of panicking. -/
theorem shuffle_indicator {F G : Type} [Field F] [AddCommGroup G] [Module F G]
    [DecidableEq F] [DecidableEq G] (sigma : List Nat) (ring : List G) (pk : G) :
    ((shuffle (F := F) sigma ring pk).2.length = (shuffle (F := F) sigma ring pk).1.length) ∧
    (∀ i, i < (shuffle (F := F) sigma ring pk).1.length →
      (shuffle (F := F) sigma ring pk).2.getD i 0 =
        if (shuffle (F := F) sigma ring pk).1.getD i 0 = pk then 1 else 0) ∧
    ((shuffle (F := F) sigma ring pk).2.count 1 =
      (shuffle (F := F) sigma ring pk).1.count pk) ∧
    (pk ∉ (shuffle (F := F) sigma ring pk).1 →
      ∀ x ∈ (shuffle (F := F) sigma ring pk).2, x = 0) := by
  refine ⟨by simp [shuffle], fun i hi => ?_, count_one_map_indicator pk _, fun habs x hx => ?_⟩
  · have hi2 : i < ((apply_permutation sigma ring).map
        (fun p => if p = pk then (1 : F) else 0)).length := by
      simpa [shuffle] using hi
    simp only [shuffle] at hi ⊢
    rw [List.getD_eq_getElem _ _ hi2, List.getElem_map]
    simp [List.getD_eq_getElem _ _ hi, List.getElem?_eq_getElem hi]
  · simp only [shuffle, List.mem_map] at hx
    obtain ⟨p, hp, rfl⟩ := hx
    have : p ≠ pk := fun h => habs (by simpa [shuffle, h] using hp)
    simp [this]

/-- C4 counterexample: on a ring not containing `pk`, `shuffle` returns
the all-zero indicator vector (a normal return of Hamming weight 0)
rather than panicking or failing. -/
theorem shuffle_no_panic_counterexample :
    shuffle (F := ZMod 5) [0] ([1] : List (ZMod 5)) (2 : ZMod 5) = ([1], [0]) ∧
    ((2 : ZMod 5) ∉ ([1] : List (ZMod 5))) ∧
    (shuffle (F := ZMod 5) [0] ([1] : List (ZMod 5)) (2 : ZMod 5)).2.count 1 = 0 := by
  refine ⟨by decide, by decide, by decide⟩

/-- C4 witness: the amended theorem at a concrete ring of size 2 where
`pk` occurs once. -/
theorem shuffle_indicator_witness :
    (1 < (shuffle (F := ZMod 5) [1, 0] ([3, 4] : List (ZMod 5)) (3 : ZMod 5)).1.length) ∧
    (shuffle (F := ZMod 5) [1, 0] ([3, 4] : List (ZMod 5)) (3 : ZMod 5)).2.getD 1 0 =
      (if (shuffle (F := ZMod 5) [1, 0] ([3, 4] : List (ZMod 5)) (3 : ZMod 5)).1.getD 1 0 = 3
        then 1 else 0) := by
  refine ⟨by decide, ?_⟩
  exact (shuffle_indicator (F := ZMod 5) [1, 0] ([3, 4] : List (ZMod 5)) (3 : ZMod 5)).2.1 1
    (by decide)

/-- C2 (code bug): `setup` builds the generator vector with
`vec![C::Affine::rand(rng); supported_size]`, so every entry is the single
random point drawn at counter `c + 1` repeated; in particular at the
failing input `supported_size = 2` the two generators coincide, against
the spec's requirement of independently sampled generators. -/
theorem pedersen_setup_repeats_one_point {F G : Type} [Field F] [AddCommGroup G] [Module F G]
    (rs : Nat → F) (rp : Nat → G) (c : Nat) (gen0 : G) (s : Nat) :
    (PedersenCommitmentScheme.setup rs rp c gen0 s).1.vec_g
        = List.replicate s (rp (c + 1)) ∧
    ((PedersenCommitmentScheme.setup (F := F) rs rp c gen0 2).1.vec_g.getD 0 0 =
      (PedersenCommitmentScheme.setup (F := F) rs rp c gen0 2).1.vec_g.getD 1 0) := by
  constructor
  · rfl
  · simp [PedersenCommitmentScheme.setup]

/-- IPA parameters, from `bulletproofs/src/structs.rs`
(`InnerProductParam`). -/
structure InnerProductParam (F G : Type) where
  factors_G : List F
  factors_H : List F
  u : G
  vec_G : List G
  vec_H : List G
deriving DecidableEq

/-- IPA proof, from `bulletproofs/src/structs.rs` (`InnerProductProof`). -/
structure InnerProductProof (F G : Type) where
  vec_L : List G
  vec_R : List G
  a : F
  b : F
  challenges : List F
deriving DecidableEq

section IPA

variable {F : Type} [Field F] {G : Type} [AddCommGroup G] [Module F G]
variable [DecidableEq F] [DecidableEq G]

/-- One plain-round cross commitment `L` of the IPA prover loop
(`bulletproofs/src/ipa.rs`, loop step): with the current half length
`n = |a| / 2`, `L = MSM(G_R ++ H_L ++ [u], a_L ++ b_R ++ [⟨a_L, b_R⟩])`. -/
def round_L (u : G) (vec_a vec_b : List F) (vec_G vec_H : List G) : G :=
  let n := vec_a.length / 2
  msm (vec_G.drop n ++ vec_H.take n ++ [u])
    (vec_a.take n ++ vec_b.drop n ++ [inner_product (vec_a.take n) (vec_b.drop n)])

/-- One plain-round cross commitment `R` of the IPA prover loop. -/
def round_R (u : G) (vec_a vec_b : List F) (vec_G vec_H : List G) : G :=
  let n := vec_a.length / 2
  msm (vec_G.take n ++ vec_H.drop n ++ [u])
    (vec_a.drop n ++ vec_b.take n ++ [inner_product (vec_a.drop n) (vec_b.take n)])

/-- Scalar-vector fold `a ← x·a_L + x⁻¹·a_R` of the IPA prover loop. -/
def fold_a (x : F) (vec_a : List F) : List F :=
  let n := vec_a.length / 2
  vec_add (scalar_product (vec_a.take n) x) (scalar_product (vec_a.drop n) x⁻¹)

/-- Scalar-vector fold `b ← x⁻¹·b_L + x·b_R` of the IPA prover loop. -/
def fold_b (x : F) (vec_b : List F) : List F :=
  let n := vec_b.length / 2
  vec_add (scalar_product (vec_b.take n) x⁻¹) (scalar_product (vec_b.drop n) x)

/-- Generator fold `G'_i = x⁻¹·G_L[i] + x·G_R[i]` of the IPA prover loop. -/
def fold_G (x : F) (vec_G : List G) : List G :=
  let n := vec_G.length / 2
  List.zipWith (fun gl gr => x⁻¹ • gl + x • gr) (vec_G.take n) (vec_G.drop n)

/-- Generator fold `H'_i = x·H_L[i] + x⁻¹·H_R[i]` of the IPA prover loop. -/
def fold_H (x : F) (vec_H : List G) : List G :=
  let n := vec_H.length / 2
  List.zipWith (fun hl hr => x • hl + x⁻¹ • hr) (vec_H.take n) (vec_H.drop n)

/-- Pointwise scaling of a generator vector by a factor vector; the first
IPA round on `(G, factors_G)` coincides with a plain round on
`scale_gens factors_G G`. -/
def scale_gens (f : List F) (gens : List G) : List G :=
  List.zipWith (fun (c : F) (g : G) => c • g) f gens

/-- Faithful IPA prover loop (`while n != 1` in
`InnerProductProtocol::prove`): `fuel` counts the remaining rounds; the
challenge `x` is drawn from the transcript oracle over the absorbed
history and `x.inverse().unwrap()` panics when `x = 0`. -/
def ipaLoop (u : G) (chal : List (TItem F G) → F) :
    Nat → List (TItem F G) → List F → List F → List G → List G →
    RunResult (List G × List G × List F × List F × List F)
  | 0, _, vec_a, vec_b, _, _ => .ok ([], [], [], vec_a, vec_b)
  | fuel + 1, hist, vec_a, vec_b, vec_G, vec_H =>
    let com_L := round_L u vec_a vec_b vec_G vec_H
    let com_R := round_R u vec_a vec_b vec_G vec_H
    let hist1 := hist ++ [.point com_L, .point com_R]
    let x := chal hist1
    if x = 0 then .panic "called unwrap on None" else
    let hist2 := hist1 ++ [.scalar x]
    match ipaLoop u chal fuel hist2 (fold_a x vec_a) (fold_b x vec_b)
        (fold_G x vec_G) (fold_H x vec_H) with
    | .ok (Ls, Rs, xs, af, bf) => .ok (com_L :: Ls, com_R :: Rs, x :: xs, af, bf)
    | .err e => .err e
    | .panic s => .panic s

/-- Pure (panic-free) image of the prover rounds, used to state and prove
properties of the honest run; under a never-zero challenge oracle
`ipaLoop` returns exactly this data (`ipaLoop_eq_fold_run`). -/
structure FoldOut (F G : Type) where
  Ls : List G
  Rs : List G
  xs : List F
  af : List F
  bf : List F
  Gf : List G
  Hf : List G

/-- Pure recursion computing the round data of the IPA prover loop,
including the folded generators. -/
def fold_run (u : G) (chal : List (TItem F G) → F) :
    Nat → List (TItem F G) → List F → List F → List G → List G → FoldOut F G
  | 0, _, vec_a, vec_b, vec_G, vec_H => ⟨[], [], [], vec_a, vec_b, vec_G, vec_H⟩
  | fuel + 1, hist, vec_a, vec_b, vec_G, vec_H =>
    let com_L := round_L u vec_a vec_b vec_G vec_H
    let com_R := round_R u vec_a vec_b vec_G vec_H
    let hist1 := hist ++ [.point com_L, .point com_R]
    let x := chal hist1
    let hist2 := hist1 ++ [.scalar x]
    let o := fold_run u chal fuel hist2 (fold_a x vec_a) (fold_b x vec_b)
      (fold_G x vec_G) (fold_H x vec_H)
    ⟨com_L :: o.Ls, com_R :: o.Rs, x :: o.xs, o.af, o.bf, o.Gf, o.Hf⟩

/-- `InnerProductProtocol::prove` from `bulletproofs/src/ipa.rs`: length
checks, power-of-two check, transcript absorption of `n`, the special
first round folding `factors_G`/`factors_H` into the generators, then the
plain rounds. -/
def ipaProve (params : InnerProductParam F G) (chal : List (TItem F G) → F)
    (vec_a vec_b : List F) : RunResult (InnerProductProof F G) :=
  let n := params.vec_G.length
  if params.vec_H.length ≠ n ∨ vec_a.length ≠ n ∨ vec_b.length ≠ n ∨
      params.factors_G.length ≠ n ∨ params.factors_H.length ≠ n then
    .err (.InvalidParameters "vectors length are different")
  else if ¬ is_power_of_two n then
    .err (.InvalidParameters "vector length is not power of two")
  else
    let hist0 : List (TItem F G) := [.scalar ((n : Nat) : F)]
    if n = 1 then
      .ok ⟨[], [], vec_a.getD 0 0, vec_b.getD 0 0, []⟩
    else
      let m := n / 2
      let a_L := vec_a.take m
      let a_R := vec_a.drop m
      let b_L := vec_b.take m
      let b_R := vec_b.drop m
      let G_L := params.vec_G.take m
      let G_R := params.vec_G.drop m
      let H_L := params.vec_H.take m
      let H_R := params.vec_H.drop m
      let c_L := inner_product a_L b_R
      let c_R := inner_product a_R b_L
      let com_L := msm (G_R ++ H_L ++ [params.u])
        (hadamard_product a_L (params.factors_G.drop m) ++
          hadamard_product b_R (params.factors_H.take m) ++ [c_L])
      let com_R := msm (G_L ++ H_R ++ [params.u])
        (hadamard_product a_R (params.factors_G.take m) ++
          hadamard_product b_L (params.factors_H.drop m) ++ [c_R])
      let hist1 := hist0 ++ [.point com_L, .point com_R]
      let x := chal hist1
      if x = 0 then .panic "called unwrap on None" else
      let hist2 := hist1 ++ [.scalar x]
      let x_inv := x⁻¹
      let a1 := vec_add (scalar_product a_L x) (scalar_product a_R x_inv)
      let b1 := vec_add (scalar_product b_L x_inv) (scalar_product b_R x)
      let G1 := List.zipWith (fun (gc : G × F) (hd : G × F) =>
          (x_inv * gc.2) • gc.1 + (x * hd.2) • hd.1)
        (G_L.zip (params.factors_G.take m)) (G_R.zip (params.factors_G.drop m))
      let H1 := List.zipWith (fun (gc : G × F) (hd : G × F) =>
          (x * gc.2) • gc.1 + (x_inv * hd.2) • hd.1)
        (H_L.zip (params.factors_H.take m)) (H_R.zip (params.factors_H.drop m))
      match ipaLoop params.u chal (Nat.log2 n - 1) hist2 a1 b1 G1 H1 with
      | .ok (Ls, Rs, xs, af, bf) =>
          .ok ⟨com_L :: Ls, com_R :: Rs, af.getD 0 0, bf.getD 0 0, x :: xs⟩
      | .err e => .err e
      | .panic s => .panic s

/-- Verifier-side challenge recomputation loop of
`InnerProductProtocol::verify`: feed the proof's `L_i, R_i` into the
transcript, derive `x`, panic on a zero challenge (`inverse().unwrap()`),
reject on mismatch with the proof's `challenges[i]`; returns the derived
challenges, their squares, their inverse squares, and `all_inv`. -/
def ipaVerChals (chal : List (TItem F G) → F) :
    List F → List G → List G → List (TItem F G) →
    RunResult (List F × List F × List F × F)
  | _, [], _, _ => .ok ([], [], [], 1)
  | pcs, L :: Ls, Rs, hist =>
    match Rs with
    | [] => .panic "index out of bounds"
    | R :: Rs2 =>
      let hist1 := hist ++ [.point L, .point R]
      let x := chal hist1
      if x = 0 then .panic "called unwrap on None" else
      let hist2 := hist1 ++ [.scalar x]
      match pcs with
      | [] => .panic "index out of bounds"
      | c :: pcs2 =>
        if x ≠ c then .err (.InvalidProof "invalid challenge value")
        else
          match ipaVerChals chal pcs2 Ls Rs2 hist2 with
          | .ok (xs, sqs, isqs, ai) =>
              .ok (x :: xs, x * x :: sqs, x⁻¹ * x⁻¹ :: isqs, x⁻¹ * ai)
          | .err e => .err e
          | .panic s => .panic s

/-- The sequence of challenges the verifier would re-derive from the
transcript for a given `(L, R)` sequence (independent of the proof's
carried challenges). -/
def derive_xs (chal : List (TItem F G) → F) :
    List G → List G → List (TItem F G) → List F
  | [], _, _ => []
  | L :: Ls, R :: Rs, hist =>
    let x := chal (hist ++ [.point L, .point R])
    x :: derive_xs chal Ls Rs (hist ++ [.point L, .point R, .scalar x])
  | _ :: _, [], _ => []

/-- The "box" scalar expansion of `InnerProductProtocol::verify`: entry
`0` is `all_inv = Π x_j⁻¹` and entry `i` is
`vec_box[i - 2^⌊log₂ i⌋] * challenges_sq[log_n - 1 - ⌊log₂ i⌋]`
(the code records entries in a growing vector; the recursion computes the
same values). -/
def box_entry (challenges_sq : List F) (log_n : Nat) (all_inv : F) : Nat → F
  | 0 => all_inv
  | i + 1 =>
    box_entry challenges_sq log_n all_inv (i + 1 - 2 ^ Nat.log2 (i + 1)) *
      challenges_sq.getD (log_n - 1 - Nat.log2 (i + 1)) 0
decreasing_by
  exact Nat.sub_lt (Nat.succ_pos i) (Nat.two_pow_pos _)

/-- `InnerProductProtocol::verify` from `bulletproofs/src/ipa.rs`:
`assert_eq!(params.vec_G.len(), n)` (panic on mismatch), the `log_n ≥ 32`
and `n ≠ 2^log_n` checks, challenge recomputation, the box expansion, and
the final single multi-exponentiation compared against `target_P`.  The
`hadamard_product` length assertion and the final `msm(...).unwrap()` are
modelled as panic guards. -/
def ipaVerify (n : Nat) (target_P : G) (params : InnerProductParam F G)
    (chal : List (TItem F G) → F) (proof : InnerProductProof F G) : RunResult Unit :=
  if params.vec_G.length ≠ n then .panic "assertion failed" else
  let log_n := proof.vec_L.length
  if 32 ≤ log_n then .err (.InvalidParameters "vector size is too large") else
  if n ≠ 2 ^ log_n then .err (.InvalidProof "incorrect proof length") else
  let hist0 : List (TItem F G) := [.scalar ((n : Nat) : F)]
  match ipaVerChals chal proof.challenges proof.vec_L proof.vec_R hist0 with
  | .ok (_, challenges_sq, challenges_inv_sq, all_inv) =>
    if params.factors_G.length ≠ n ∨ params.factors_H.length ≠ n then
      .panic "assertion failed: vectors must be of the same length"
    else
      let vec_box := (List.range n).map (box_entry challenges_sq log_n all_inv)
      let vec_box_reverse := vec_box.reverse
      let g_a_box := scalar_product (hadamard_product vec_box params.factors_G) proof.a
      let h_b_box := scalar_product (hadamard_product vec_box_reverse params.factors_H) proof.b
      let exp := [proof.a * proof.b] ++ g_a_box ++ h_b_box ++
        challenges_sq.map (fun xi => -xi) ++ challenges_inv_sq.map (fun xi => -xi)
      let base := [params.u] ++ params.vec_G ++ params.vec_H ++ proof.vec_L ++ proof.vec_R
      if base.length ≠ exp.length then .panic "called unwrap on Err" else
      if msm base exp = target_P then .ok () else .err (.InvalidProof "invalid IPA proof")
  | .err e => .err e
  | .panic s => .panic s

end IPA

/-- `is_power_of_two` holds exactly on the powers of two. -/
theorem is_power_of_two_iff (n : Nat) : is_power_of_two n = true ↔ ∃ k, n = 2 ^ k := by
  constructor
  · intro h
    have h2 : (2 ^ Nat.log2 n == n) = true := h
    exact ⟨Nat.log2 n, (eq_of_beq h2).symm⟩
  · rintro ⟨k, rfl⟩
    simp [is_power_of_two, Nat.log2_two_pow]

/-- `is_power_of_two` at a literal power of two. -/
theorem is_power_of_two_two_pow (k : Nat) : is_power_of_two (2 ^ k) = true := by
  simp [is_power_of_two, Nat.log2_two_pow]

/-- `is_power_of_two 1 = true`. -/
theorem is_power_of_two_one : is_power_of_two 1 = true := by
  simpa using is_power_of_two_two_pow 0

/-- C9: with input vectors of length 1 the IPA prover performs no folding
rounds and emits a proof with empty `vec_L`, `vec_R` and `challenges` and
scalars `(a, b)` equal to the inputs; and the IPA verifier at `n = 1`
accepts exactly when `P = G₀·(a·f_G[0]) + H₀·(b·f_H[0]) + u·(a·b)`. -/
theorem ipa_n_eq_one {F G : Type} [Field F] [AddCommGroup G] [Module F G]
    [DecidableEq F] [DecidableEq G] (u g0 h0 : G) (fg fh a b : F) (P : G)
    (chal : List (TItem F G) → F) :
    (ipaProve (⟨[fg], [fh], u, [g0], [h0]⟩ : InnerProductParam F G) chal [a] [b] =
      .ok ⟨[], [], a, b, []⟩) ∧
    (ipaVerify 1 P (⟨[fg], [fh], u, [g0], [h0]⟩ : InnerProductParam F G) chal
        ⟨[], [], a, b, []⟩ = .ok () ↔
      P = (a * fg) • g0 + (b * fh) • h0 + (a * b) • u) := by
  constructor
  · simp [ipaProve, is_power_of_two_one]
  · have hred : ipaVerify 1 P (⟨[fg], [fh], u, [g0], [h0]⟩ : InnerProductParam F G) chal
        ⟨[], [], a, b, []⟩ =
        if (a * b) • u + ((fg * a) • g0 + (fh * b) • h0) = P then .ok ()
        else .err (.InvalidProof "invalid IPA proof") := by
      simp [ipaVerify, ipaVerChals, box_entry, hadamard_product, scalar_product, msm,
        List.range_succ]
    rw [hred]
    have hXY : (a * b) • u + ((fg * a) • g0 + (fh * b) • h0) =
        (a * fg) • g0 + (b * fh) • h0 + (a * b) • u := by
      rw [mul_comm a fg, mul_comm b fh]
      abel
    constructor
    · intro h
      by_cases hc : (a * b) • u + ((fg * a) • g0 + (fh * b) • h0) = P
      · rw [← hc, hXY]
      · simp [hc] at h
    · intro h
      have hc : (a * b) • u + ((fg * a) • g0 + (fh * b) • h0) = P := by
        rw [hXY, h]
      simp [hc]

section IPALemmas

variable {F : Type} [Field F] {G : Type} [AddCommGroup G] [Module F G]
variable [DecidableEq F] [DecidableEq G]

/-- Every challenge the verifier would re-derive is a value of the oracle,
so a never-zero oracle yields never-zero derived challenges. -/
theorem derive_xs_nonzero (chal : List (TItem F G) → F) (hchal : ∀ l, chal l ≠ 0) :
    ∀ (Ls Rs : List G) (hist : List (TItem F G)), ∀ x ∈ derive_xs chal Ls Rs hist, x ≠ 0 := by
  intro Ls
  induction Ls with
  | nil => intro Rs hist x hx; simp [derive_xs] at hx
  | cons L Ls2 ih =>
    intro Rs hist x hx
    cases Rs with
    | nil => simp [derive_xs] at hx
    | cons R Rs2 =>
      simp only [derive_xs, List.mem_cons] at hx
      rcases hx with rfl | hx
      · exact hchal _
      · exact ih Rs2 _ x hx

/-- Behaviour of the verifier's challenge loop on proofs with matching
`vec_L`/`vec_R`/`challenges` lengths and nonzero derived challenges: it
succeeds exactly when the re-derived challenges equal the carried ones,
and rejects with `InvalidProof` otherwise. -/
theorem ipaVerChals_spec (chal : List (TItem F G) → F) :
    ∀ (Ls Rs : List G) (pcs : List F) (hist : List (TItem F G)),
    Rs.length = Ls.length → pcs.length = Ls.length →
    (∀ x ∈ derive_xs chal Ls Rs hist, x ≠ 0) →
    ipaVerChals chal pcs Ls Rs hist =
      if derive_xs chal Ls Rs hist = pcs then
        .ok (pcs, pcs.map (fun x => x * x), pcs.map (fun x => x⁻¹ * x⁻¹),
          (pcs.map (fun x => x⁻¹)).prod)
      else .err (.InvalidProof "invalid challenge value") := by
  intro Ls
  induction Ls with
  | nil =>
    intro Rs pcs hist hR hp _
    have : pcs = [] := List.eq_nil_of_length_eq_zero (by simpa using hp)
    subst this
    simp [ipaVerChals, derive_xs]
  | cons L Ls2 ih =>
    intro Rs pcs hist hR hp hnz
    cases Rs with
    | nil => simp at hR
    | cons R Rs2 =>
      cases pcs with
      | nil => simp at hp
      | cons c pcs2 =>
        have hx0 : chal (hist ++ [TItem.point L, TItem.point R]) ≠ 0 := by
          apply hnz
          simp [derive_xs]
        have hR2 : Rs2.length = Ls2.length := by simpa using hR
        have hp2 : pcs2.length = Ls2.length := by simpa using hp
        have hnz2 : ∀ x ∈ derive_xs chal Ls2 Rs2
            (hist ++ [TItem.point L, TItem.point R,
              TItem.scalar (chal (hist ++ [TItem.point L, TItem.point R]))]), x ≠ 0 := by
          intro x hx
          apply hnz
          simp only [derive_xs, List.mem_cons]
          right
          simpa [List.append_assoc] using hx
        by_cases hxc : chal (hist ++ [TItem.point L, TItem.point R]) = c
        · subst hxc
          have hrec := ih Rs2 pcs2
            (hist ++ [TItem.point L, TItem.point R,
              TItem.scalar (chal (hist ++ [TItem.point L, TItem.point R]))]) hR2 hp2 hnz2
          simp only [ipaVerChals, derive_xs]
          rw [if_neg hx0]
          simp only [List.append_assoc, List.cons_append, List.nil_append] at hrec ⊢
          rw [if_neg (by simp)]
          rw [hrec]
          by_cases hd : derive_xs chal Ls2 Rs2
              (hist ++ [TItem.point L, TItem.point R,
                TItem.scalar (chal (hist ++ [TItem.point L, TItem.point R]))]) = pcs2
          · rw [if_pos hd, if_pos (by simp [hd])]
            simp
          · rw [if_neg hd, if_neg (by simp [hd])]
        · simp only [ipaVerChals, derive_xs]
          rw [if_neg hx0]
          rw [if_pos (by simpa using hxc)]
          rw [if_neg (by simp [hxc])]

end IPALemmas

/-- C5: `prove` rejects with `InvalidParameters` (returning, not
panicking) whenever one of the five companion lengths differs from
`|vec_G| = n` or `n` is not a power of two; `verify` returns an error
whenever `log_n ≥ 32`, whenever `n ≠ 2^log_n`, and whenever a re-derived
challenge differs from the corresponding carried challenge (for proofs
with matching `vec_L`/`vec_R`/`challenges` lengths and nonzero derived
challenges, and `verify` called with `n = |vec_G|` as at its call sites). -/
theorem ipa_input_validation {F G : Type} [Field F] [AddCommGroup G] [Module F G]
    [DecidableEq F] [DecidableEq G] :
    (∀ (params : InnerProductParam F G) (chal : List (TItem F G) → F) (a b : List F),
      (params.vec_H.length ≠ params.vec_G.length ∨ a.length ≠ params.vec_G.length ∨
        b.length ≠ params.vec_G.length ∨ params.factors_G.length ≠ params.vec_G.length ∨
        params.factors_H.length ≠ params.vec_G.length) →
      ipaProve params chal a b = .err (.InvalidParameters "vectors length are different")) ∧
    (∀ (params : InnerProductParam F G) (chal : List (TItem F G) → F) (a b : List F),
      params.vec_H.length = params.vec_G.length → a.length = params.vec_G.length →
      b.length = params.vec_G.length → params.factors_G.length = params.vec_G.length →
      params.factors_H.length = params.vec_G.length →
      is_power_of_two params.vec_G.length = false →
      ipaProve params chal a b = .err (.InvalidParameters "vector length is not power of two")) ∧
    (∀ (n : Nat) (target_P : G) (params : InnerProductParam F G)
        (chal : List (TItem F G) → F) (proof : InnerProductProof F G),
      params.vec_G.length = n → 32 ≤ proof.vec_L.length →
      ipaVerify n target_P params chal proof =
        .err (.InvalidParameters "vector size is too large")) ∧
    (∀ (n : Nat) (target_P : G) (params : InnerProductParam F G)
        (chal : List (TItem F G) → F) (proof : InnerProductProof F G),
      params.vec_G.length = n → proof.vec_L.length < 32 → n ≠ 2 ^ proof.vec_L.length →
      ipaVerify n target_P params chal proof =
        .err (.InvalidProof "incorrect proof length")) ∧
    (∀ (n : Nat) (target_P : G) (params : InnerProductParam F G)
        (chal : List (TItem F G) → F) (proof : InnerProductProof F G),
      params.vec_G.length = n → proof.vec_L.length < 32 → n = 2 ^ proof.vec_L.length →
      proof.vec_R.length = proof.vec_L.length →
      proof.challenges.length = proof.vec_L.length →
      (∀ x ∈ derive_xs chal proof.vec_L proof.vec_R [TItem.scalar ((n : Nat) : F)], x ≠ 0) →
      derive_xs chal proof.vec_L proof.vec_R [TItem.scalar ((n : Nat) : F)] ≠
        proof.challenges →
      ipaVerify n target_P params chal proof =
        .err (.InvalidProof "invalid challenge value")) := by
  refine ⟨?_, ?_, ?_, ?_, ?_⟩
  · intro params chal a b h
    simp only [ipaProve]
    rw [if_pos h]
  · intro params chal a b h1 h2 h3 h4 h5 hpow
    simp only [ipaProve]
    rw [if_neg (by simp [h1, h2, h3, h4, h5]), if_pos (by simp [hpow])]
  · intro n target_P params chal proof h1 h2
    simp only [ipaVerify]
    rw [if_neg (by simp [h1]), if_pos h2]
  · intro n target_P params chal proof h1 h2 h3
    simp only [ipaVerify]
    rw [if_neg (by simp [h1]), if_neg (by omega), if_pos h3]
  · intro n target_P params chal proof h1 h2 h3 hR hc hnz hne
    simp only [ipaVerify]
    rw [if_neg (by simp [h1]), if_neg (by omega), if_neg (by simpa using h3)]
    rw [ipaVerChals_spec chal proof.vec_L proof.vec_R proof.challenges _ hR hc hnz]
    rw [if_neg hne]

/-- `3` is not a power of two. -/
theorem is_power_of_two_three : is_power_of_two 3 = false := by
  rw [Bool.eq_false_iff]
  intro h
  obtain ⟨k, hk⟩ := (is_power_of_two_iff 3).mp h
  match k, hk with
  | 0, hk => simp at hk
  | 1, hk => simp at hk
  | (k + 2), hk =>
    have h4 : (2 : Nat) ^ 2 ≤ 2 ^ (k + 2) := Nat.pow_le_pow_right (by norm_num) (by omega)
    have h42 : (2 : Nat) ^ 2 = 4 := by norm_num
    omega

/-- C5 witness: each rejection of `ipa_input_validation` exercised at a
concrete input over `ZMod 5`. -/
theorem ipa_input_validation_witness :
    (([] : List (ZMod 5)).length ≠ ([(0 : ZMod 5)] : List (ZMod 5)).length ∧
      ipaProve (⟨[], [], 0, [0], []⟩ : InnerProductParam (ZMod 5) (ZMod 5)) (fun _ => 1) [0] [0]
        = .err (.InvalidParameters "vectors length are different")) ∧
    (is_power_of_two 3 = false ∧
      ipaProve (⟨[0, 0, 0], [0, 0, 0], 0, [0, 0, 0], [0, 0, 0]⟩ :
          InnerProductParam (ZMod 5) (ZMod 5)) (fun _ => 1) [0, 0, 0] [0, 0, 0]
        = .err (.InvalidParameters "vector length is not power of two")) ∧
    (32 ≤ (List.replicate 32 (0 : ZMod 5)).length ∧
      ipaVerify 0 0 (⟨[], [], 0, [], []⟩ : InnerProductParam (ZMod 5) (ZMod 5)) (fun _ => 1)
        ⟨List.replicate 32 0, [], 0, 0, []⟩
        = .err (.InvalidParameters "vector size is too large")) ∧
    ((3 : Nat) ≠ 2 ^ 1 ∧
      ipaVerify 3 0 (⟨[], [], 0, [0, 0, 0], []⟩ : InnerProductParam (ZMod 5) (ZMod 5))
        (fun _ => 1) ⟨[0], [0], 0, 0, [0]⟩ = .err (.InvalidProof "incorrect proof length")) ∧
    (derive_xs (fun _ => (1 : ZMod 5)) [(0 : ZMod 5)] [0] [TItem.scalar ((2 : Nat) : ZMod 5)]
        ≠ [2] ∧
      ipaVerify 2 0 (⟨[], [], 0, [0, 0], []⟩ : InnerProductParam (ZMod 5) (ZMod 5)) (fun _ => 1)
        ⟨[0], [0], 0, 0, [2]⟩ = .err (.InvalidProof "invalid challenge value")) := by
  refine ⟨⟨by decide, ?_⟩, ⟨is_power_of_two_three, ?_⟩, ⟨by decide, ?_⟩, ⟨by decide, ?_⟩,
    ⟨by decide, ?_⟩⟩
  · exact ipa_input_validation.1 _ _ _ _ (by decide)
  · exact ipa_input_validation.2.1 _ _ _ _ (by decide) (by decide) (by decide) (by decide)
      (by decide) is_power_of_two_three
  · exact ipa_input_validation.2.2.1 _ _ _ _ _ (by decide) (by decide)
  · exact ipa_input_validation.2.2.2.1 _ _ _ _ _ (by decide) (by decide) (by decide)
  · exact ipa_input_validation.2.2.2.2 _ _ _ _ _ (by decide) (by decide) (by decide)
      (by decide) (by decide) (by decide) (by decide)

section AlgebraLemmas

variable {F : Type} [Field F] {G : Type} [AddCommGroup G] [Module F G]
variable [DecidableEq F] [DecidableEq G]

/-- `msm` over an empty base. -/
theorem msm_nil_left (exp : List F) : msm ([] : List G) exp = 0 := by
  simp [msm]

/-- `msm` with an empty exponent vector. -/
theorem msm_nil_right (base : List G) : msm base ([] : List F) = 0 := by
  cases base <;> simp [msm]

/-- `msm` unfolding on cons. -/
theorem msm_cons (p : G) (base : List G) (s : F) (exp : List F) :
    msm (p :: base) (s :: exp) = s • p + msm base exp := by
  simp [msm]

/-- `msm` splits over appends of matching-length prefixes. -/
theorem msm_append {G1 G2 : List G} {a1 a2 : List F} (h : G1.length = a1.length) :
    msm (G1 ++ G2) (a1 ++ a2) = msm G1 a1 + msm G2 a2 := by
  simp [msm, List.zipWith_append _ _ _ _ _ h]

/-- `inner_product` splits over appends of matching-length prefixes. -/
theorem inner_product_append {a1 a2 b1 b2 : List F} (h : a1.length = b1.length) :
    inner_product (a1 ++ a2) (b1 ++ b2) = inner_product a1 b1 + inner_product a2 b2 := by
  simp [inner_product, List.zipWith_append _ _ _ _ _ h]

/-- `msm` pulls out a right scalar factor. -/
theorem msm_smul (base : List G) : ∀ (a : List F) (c : F),
    msm base (scalar_product a c) = c • msm base a := by
  induction base with
  | nil => intro a c; simp [msm]
  | cons p base ih =>
    intro a c
    cases a with
    | nil => simp [msm, scalar_product]
    | cons x a =>
      have ih2 := ih a c
      simp only [msm, scalar_product] at ih2 ⊢
      simp only [List.map_cons, List.zipWith_cons_cons, List.sum_cons]
      rw [ih2, smul_add, smul_smul, mul_comm x c]

/-- `msm` is additive in the exponent vector. -/
theorem msm_vec_add (base : List G) : ∀ (a b : List F), a.length = b.length →
    msm base (vec_add a b) = msm base a + msm base b := by
  induction base with
  | nil => intro a b _; simp [msm]
  | cons p base ih =>
    intro a b h
    cases a with
    | nil =>
      cases b with
      | nil => simp [msm, vec_add]
      | cons y b => simp at h
    | cons x a =>
      cases b with
      | nil => simp at h
      | cons y b =>
        have ih2 := ih a b (by simpa using h)
        simp only [msm, vec_add] at ih2 ⊢
        simp only [List.zipWith_cons_cons, List.sum_cons]
        rw [ih2, add_smul]
        abel

/-- `msm` over pointwise-scaled generators folds the factors into the
exponents. -/
theorem msm_scale_gens : ∀ (f : List F) (gens : List G) (a : List F),
    msm (scale_gens f gens) a = msm gens (hadamard_product a f) := by
  intro f
  induction f with
  | nil => intro gens a; cases gens <;> cases a <;> simp [msm, scale_gens, hadamard_product]
  | cons c f ih =>
    intro gens a
    cases gens with
    | nil => cases a <;> simp [msm, scale_gens, hadamard_product]
    | cons g gens =>
      cases a with
      | nil => simp [msm, scale_gens, hadamard_product]
      | cons x a =>
        have ih2 := ih gens a
        simp only [msm, scale_gens, hadamard_product] at ih2 ⊢
        simp only [List.zipWith_cons_cons, List.sum_cons]
        rw [ih2, smul_smul]

/-- `msm` over pointwise-combined generator vectors splits linearly. -/
theorem msm_zip_combo (c d : F) : ∀ (Gls Grs : List G) (a : List F),
    Gls.length = Grs.length →
    msm (List.zipWith (fun gl gr => c • gl + d • gr) Gls Grs) a =
      c • msm Gls a + d • msm Grs a := by
  intro Gls
  induction Gls with
  | nil =>
    intro Grs a h
    have : Grs = [] := List.eq_nil_of_length_eq_zero (by simpa using h.symm)
    subst this
    simp [msm]
  | cons gl Gls ih =>
    intro Grs a h
    cases Grs with
    | nil => simp at h
    | cons gr Grs =>
      cases a with
      | nil => simp [msm]
      | cons x a =>
        have ih2 := ih Grs a (by simpa using h)
        simp only [msm] at ih2 ⊢
        simp only [List.zipWith_cons_cons, List.sum_cons]
        rw [ih2, smul_add, smul_add, smul_add, smul_smul, smul_smul, smul_smul, smul_smul,
          mul_comm x c, mul_comm x d]
        abel

/-- `inner_product` pulls out a left scalar factor. -/
theorem inner_product_smul_left : ∀ (a b : List F) (c : F),
    inner_product (scalar_product a c) b = c * inner_product a b := by
  intro a
  induction a with
  | nil => intro b c; simp [inner_product, scalar_product]
  | cons x a ih =>
    intro b c
    cases b with
    | nil => simp [inner_product, scalar_product]
    | cons y b =>
      have ih2 := ih b c
      simp only [inner_product, scalar_product] at ih2 ⊢
      simp only [List.map_cons, List.zipWith_cons_cons, List.sum_cons]
      rw [ih2]
      ring

/-- `inner_product` pulls out a right scalar factor. -/
theorem inner_product_smul_right : ∀ (a b : List F) (c : F),
    inner_product a (scalar_product b c) = c * inner_product a b := by
  intro a
  induction a with
  | nil => intro b c; simp [inner_product, scalar_product]
  | cons x a ih =>
    intro b c
    cases b with
    | nil => simp [inner_product, scalar_product]
    | cons y b =>
      have ih2 := ih b c
      simp only [inner_product, scalar_product] at ih2 ⊢
      simp only [List.map_cons, List.zipWith_cons_cons, List.sum_cons]
      rw [ih2]
      ring

/-- `inner_product` is additive on the left. -/
theorem inner_product_vec_add_left : ∀ (a1 a2 b : List F), a1.length = a2.length →
    inner_product (vec_add a1 a2) b = inner_product a1 b + inner_product a2 b := by
  intro a1
  induction a1 with
  | nil =>
    intro a2 b h
    have : a2 = [] := List.eq_nil_of_length_eq_zero (by simpa using h.symm)
    subst this
    simp [inner_product, vec_add]
  | cons x a1 ih =>
    intro a2 b h
    cases a2 with
    | nil => simp at h
    | cons y a2 =>
      cases b with
      | nil => simp [inner_product, vec_add]
      | cons z b =>
        have ih2 := ih a2 b (by simpa using h)
        simp only [inner_product, vec_add] at ih2 ⊢
        simp only [List.zipWith_cons_cons, List.sum_cons]
        rw [ih2]
        ring

/-- `inner_product` is additive on the right. -/
theorem inner_product_vec_add_right : ∀ (a b1 b2 : List F), b1.length = b2.length →
    inner_product a (vec_add b1 b2) = inner_product a b1 + inner_product a b2 := by
  intro a
  induction a with
  | nil => intro b1 b2 _; simp [inner_product, vec_add]
  | cons x a ih =>
    intro b1 b2 h
    cases b1 with
    | nil =>
      have : b2 = [] := List.eq_nil_of_length_eq_zero (by simpa using h.symm)
      subst this
      simp [inner_product, vec_add]
    | cons y b1 =>
      cases b2 with
      | nil => simp at h
      | cons z b2 =>
        have ih2 := ih b1 b2 (by simpa using h)
        simp only [inner_product, vec_add] at ih2 ⊢
        simp only [List.zipWith_cons_cons, List.sum_cons]
        rw [ih2]
        ring

/-- `msm` split at a take/drop boundary (equal-length base and exponents). -/
theorem msm_take_drop (base : List G) (a : List F) (n : Nat) (h : base.length = a.length) :
    msm base a = msm (base.take n) (a.take n) + msm (base.drop n) (a.drop n) := by
  conv_lhs => rw [← List.take_append_drop n base, ← List.take_append_drop n a]
  exact msm_append (by simp [h])

/-- `inner_product` split at a take/drop boundary. -/
theorem inner_product_take_drop (a b : List F) (n : Nat) (h : a.length = b.length) :
    inner_product a b =
      inner_product (a.take n) (b.take n) + inner_product (a.drop n) (b.drop n) := by
  conv_lhs => rw [← List.take_append_drop n a, ← List.take_append_drop n b]
  exact inner_product_append (by simp [h])

end AlgebraLemmas

section RoundInvariant

variable {F : Type} [Field F] {G : Type} [AddCommGroup G] [Module F G]
variable [DecidableEq F] [DecidableEq G]

/-- One plain IPA round preserves the commitment relation: the folded
instance commits to the original target shifted by `x²·L + x⁻²·R`
(the sanity-check identity spelled out in the comments of
`bulletproofs/src/ipa.rs`). -/
theorem ipa_round_invariant (u : G) (x : F) (hx : x ≠ 0) (m : Nat)
    (a b : List F) (Gv Hv : List G) (ha : a.length = 2 * m) (hb : b.length = 2 * m)
    (hG : Gv.length = 2 * m) (hH : Hv.length = 2 * m) :
    msm (fold_G x Gv) (fold_a x a) + msm (fold_H x Hv) (fold_b x b) +
      inner_product (fold_a x a) (fold_b x b) • u =
    msm Gv a + msm Hv b + inner_product a b • u +
      (x * x) • round_L u a b Gv Hv + (x⁻¹ * x⁻¹) • round_R u a b Gv Hv := by
  have hm2 : (2 * m) / 2 = m := by omega
  have haT : (a.take m).length = m := by rw [List.length_take]; omega
  have haD : (a.drop m).length = m := by rw [List.length_drop]; omega
  have hbT : (b.take m).length = m := by rw [List.length_take]; omega
  have hbD : (b.drop m).length = m := by rw [List.length_drop]; omega
  have hGT : (Gv.take m).length = m := by rw [List.length_take]; omega
  have hGD : (Gv.drop m).length = m := by rw [List.length_drop]; omega
  have hHT : (Hv.take m).length = m := by rw [List.length_take]; omega
  have hHD : (Hv.drop m).length = m := by rw [List.length_drop]; omega
  have hfa : fold_a x a =
      vec_add (scalar_product (a.take m) x) (scalar_product (a.drop m) x⁻¹) := by
    simp only [fold_a, ha, hm2]
  have hfb : fold_b x b =
      vec_add (scalar_product (b.take m) x⁻¹) (scalar_product (b.drop m) x) := by
    simp only [fold_b, hb, hm2]
  have hfG : fold_G x Gv =
      List.zipWith (fun gl gr => x⁻¹ • gl + x • gr) (Gv.take m) (Gv.drop m) := by
    simp only [fold_G, hG, hm2]
  have hfH : fold_H x Hv =
      List.zipWith (fun hl hr => x • hl + x⁻¹ • hr) (Hv.take m) (Hv.drop m) := by
    simp only [fold_H, hH, hm2]
  have hrl : round_L u a b Gv Hv =
      msm (Gv.drop m) (a.take m) + msm (Hv.take m) (b.drop m) +
        inner_product (a.take m) (b.drop m) • u := by
    simp only [round_L, ha, hm2]
    rw [msm_append (by rw [List.length_append, hGD, hHT, List.length_append, haT, hbD]),
      msm_append (by rw [hGD, haT])]
    simp [msm]
  have hrr : round_R u a b Gv Hv =
      msm (Gv.take m) (a.drop m) + msm (Hv.drop m) (b.take m) +
        inner_product (a.drop m) (b.take m) • u := by
    simp only [round_R, ha, hm2]
    rw [msm_append (by rw [List.length_append, hGT, hHD, List.length_append, haD, hbT]),
      msm_append (by rw [hGT, haD])]
    simp [msm]
  have eG : msm (fold_G x Gv) (fold_a x a) =
      msm Gv a + (x * x) • msm (Gv.drop m) (a.take m) +
        (x⁻¹ * x⁻¹) • msm (Gv.take m) (a.drop m) := by
    rw [hfG, hfa]
    rw [msm_vec_add _ _ _ (by simp [scalar_product]; omega)]
    rw [msm_smul, msm_smul]
    rw [msm_zip_combo x⁻¹ x (Gv.take m) (Gv.drop m) (a.take m) (by rw [hGT, hGD]),
      msm_zip_combo x⁻¹ x (Gv.take m) (Gv.drop m) (a.drop m) (by rw [hGT, hGD])]
    rw [smul_add, smul_add, smul_smul, smul_smul, smul_smul, smul_smul,
      mul_inv_cancel₀ hx, inv_mul_cancel₀ hx, one_smul, one_smul]
    rw [msm_take_drop Gv a m (by omega)]
    abel
  have eH : msm (fold_H x Hv) (fold_b x b) =
      msm Hv b + (x * x) • msm (Hv.take m) (b.drop m) +
        (x⁻¹ * x⁻¹) • msm (Hv.drop m) (b.take m) := by
    rw [hfH, hfb]
    rw [msm_vec_add _ _ _ (by simp [scalar_product]; omega)]
    rw [msm_smul, msm_smul]
    rw [msm_zip_combo x x⁻¹ (Hv.take m) (Hv.drop m) (b.take m) (by rw [hHT, hHD]),
      msm_zip_combo x x⁻¹ (Hv.take m) (Hv.drop m) (b.drop m) (by rw [hHT, hHD])]
    rw [smul_add, smul_add, smul_smul, smul_smul, smul_smul, smul_smul,
      mul_inv_cancel₀ hx, inv_mul_cancel₀ hx, one_smul, one_smul]
    rw [msm_take_drop Hv b m (by omega)]
    abel
  have eip : inner_product (fold_a x a) (fold_b x b) =
      inner_product a b + (x * x) * inner_product (a.take m) (b.drop m) +
        (x⁻¹ * x⁻¹) * inner_product (a.drop m) (b.take m) := by
    rw [hfa, hfb]
    rw [inner_product_vec_add_left _ _ _ (by simp [scalar_product]; omega)]
    rw [inner_product_vec_add_right _ _ _ (by simp [scalar_product]; omega),
      inner_product_vec_add_right _ _ _ (by simp [scalar_product]; omega)]
    rw [inner_product_smul_left, inner_product_smul_left, inner_product_smul_right,
      inner_product_smul_right, inner_product_smul_left, inner_product_smul_left,
      inner_product_smul_right, inner_product_smul_right]
    rw [inner_product_take_drop a b m (by omega)]
    field_simp
    ring
  rw [eG, eH, eip, hrl, hrr]
  simp only [add_smul, smul_add, smul_smul]
  abel

end RoundInvariant

section FoldRunLemmas

variable {F : Type} [Field F] {G : Type} [AddCommGroup G] [Module F G]
variable [DecidableEq F] [DecidableEq G]

/-- Length of a folded scalar vector. -/
theorem fold_a_length (x : F) (a : List F) (m : Nat) (h : a.length = 2 * m) :
    (fold_a x a).length = m := by
  simp only [fold_a, vec_add, scalar_product, h]
  simp
  omega

/-- Length of a folded scalar vector. -/
theorem fold_b_length (x : F) (b : List F) (m : Nat) (h : b.length = 2 * m) :
    (fold_b x b).length = m := by
  simp only [fold_b, vec_add, scalar_product, h]
  simp
  omega

/-- Length of a folded generator vector. -/
theorem fold_G_length (x : F) (Gv : List G) (m : Nat) (h : Gv.length = 2 * m) :
    (fold_G x Gv).length = m := by
  simp only [fold_G, h]
  simp
  omega

/-- Length of a folded generator vector. -/
theorem fold_H_length (x : F) (Hv : List G) (m : Nat) (h : Hv.length = 2 * m) :
    (fold_H x Hv).length = m := by
  simp only [fold_H, h]
  simp
  omega

/-- The prover loop emits one `L`, one `R` and one challenge per round. -/
theorem fold_run_round_lengths (u : G) (chal : List (TItem F G) → F) :
    ∀ (k : Nat) (hist : List (TItem F G)) (a b : List F) (Gv Hv : List G),
    (fold_run u chal k hist a b Gv Hv).Ls.length = k ∧
    (fold_run u chal k hist a b Gv Hv).Rs.length = k ∧
    (fold_run u chal k hist a b Gv Hv).xs.length = k := by
  intro k
  induction k with
  | zero => intro hist a b Gv Hv; simp [fold_run]
  | succ k ih =>
    intro hist a b Gv Hv
    simp only [fold_run]
    refine ⟨?_, ?_, ?_⟩ <;> simp [(ih _ _ _ _ _).1, (ih _ _ _ _ _).2.1, (ih _ _ _ _ _).2.2]

/-- On power-of-two inputs the prover loop ends with singleton vectors. -/
theorem fold_run_final_lengths (u : G) (chal : List (TItem F G) → F) :
    ∀ (k : Nat) (hist : List (TItem F G)) (a b : List F) (Gv Hv : List G),
    a.length = 2 ^ k → b.length = 2 ^ k → Gv.length = 2 ^ k → Hv.length = 2 ^ k →
    (fold_run u chal k hist a b Gv Hv).af.length = 1 ∧
    (fold_run u chal k hist a b Gv Hv).bf.length = 1 ∧
    (fold_run u chal k hist a b Gv Hv).Gf.length = 1 ∧
    (fold_run u chal k hist a b Gv Hv).Hf.length = 1 := by
  intro k
  induction k with
  | zero => intro hist a b Gv Hv ha hb hG hH; simp [fold_run, ha, hb, hG, hH]
  | succ k ih =>
    intro hist a b Gv Hv ha hb hG hH
    have hp : (2 : Nat) ^ (k + 1) = 2 * 2 ^ k := by rw [pow_succ]; ring
    simp only [fold_run]
    exact ih _ _ _ _ _ (fold_a_length _ _ _ (by omega)) (fold_b_length _ _ _ (by omega))
      (fold_G_length _ _ _ (by omega)) (fold_H_length _ _ _ (by omega))

/-- Main invariant of the prover loop: the folded relation target equals
the original target shifted by `Σ x_j² L_j + Σ x_j⁻² R_j`. -/
theorem fold_run_invariant (u : G) (chal : List (TItem F G) → F)
    (hchal : ∀ l, chal l ≠ 0) :
    ∀ (k : Nat) (hist : List (TItem F G)) (a b : List F) (Gv Hv : List G),
    a.length = 2 ^ k → b.length = 2 ^ k → Gv.length = 2 ^ k → Hv.length = 2 ^ k →
    msm (fold_run u chal k hist a b Gv Hv).Gf (fold_run u chal k hist a b Gv Hv).af +
      msm (fold_run u chal k hist a b Gv Hv).Hf (fold_run u chal k hist a b Gv Hv).bf +
      inner_product (fold_run u chal k hist a b Gv Hv).af
        (fold_run u chal k hist a b Gv Hv).bf • u =
    msm Gv a + msm Hv b + inner_product a b • u +
      (List.zipWith (fun xi L => (xi * xi) • L) (fold_run u chal k hist a b Gv Hv).xs
        (fold_run u chal k hist a b Gv Hv).Ls).sum +
      (List.zipWith (fun xi R => (xi⁻¹ * xi⁻¹) • R) (fold_run u chal k hist a b Gv Hv).xs
        (fold_run u chal k hist a b Gv Hv).Rs).sum := by
  intro k
  induction k with
  | zero => intro hist a b Gv Hv ha hb hG hH; simp [fold_run]
  | succ k ih =>
    intro hist a b Gv Hv ha hb hG hH
    have hp : (2 : Nat) ^ (k + 1) = 2 * 2 ^ k := by rw [pow_succ]; ring
    simp only [fold_run]
    set x := chal (hist ++ [TItem.point (round_L u a b Gv Hv), TItem.point (round_R u a b Gv Hv)]) with hxdef
    have hx : x ≠ 0 := hchal _
    have hrec := ih (hist ++ [TItem.point (round_L u a b Gv Hv),
        TItem.point (round_R u a b Gv Hv)] ++ [TItem.scalar x])
      (fold_a x a) (fold_b x b) (fold_G x Gv) (fold_H x Hv)
      (fold_a_length _ _ _ (by omega)) (fold_b_length _ _ _ (by omega))
      (fold_G_length _ _ _ (by omega)) (fold_H_length _ _ _ (by omega))
    rw [hrec]
    rw [ipa_round_invariant u x hx (2 ^ k) a b Gv Hv (by omega) (by omega) (by omega) (by omega)]
    simp only [List.zipWith_cons_cons, List.sum_cons]
    abel

/-- The "s" expansion: coefficients of the original generators in the
fully folded generator `G`, peeled challenge by challenge. -/
def s_vec : List F → List F
  | [] => [1]
  | x :: xs => scalar_product (s_vec xs) x⁻¹ ++ scalar_product (s_vec xs) x

/-- The mirrored expansion for the `H` generators. -/
def t_vec : List F → List F
  | [] => [1]
  | x :: xs => scalar_product (t_vec xs) x ++ scalar_product (t_vec xs) x⁻¹

/-- Length of the `s` expansion. -/
theorem s_vec_length (xs : List F) : (s_vec xs).length = 2 ^ xs.length := by
  induction xs with
  | nil => simp [s_vec]
  | cons x xs ih => simp [s_vec, scalar_product, ih, pow_succ]; ring

/-- Length of the `t` expansion. -/
theorem t_vec_length (xs : List F) : (t_vec xs).length = 2 ^ xs.length := by
  induction xs with
  | nil => simp [t_vec]
  | cons x xs ih => simp [t_vec, scalar_product, ih, pow_succ]; ring

/-- The `H` expansion is the reverse of the `G` expansion. -/
theorem t_vec_eq_reverse_s_vec (xs : List F) : t_vec xs = (s_vec xs).reverse := by
  induction xs with
  | nil => simp [t_vec, s_vec]
  | cons x xs ih =>
    simp only [t_vec, s_vec, List.reverse_append, scalar_product, List.map_reverse]
    rw [ih]
    simp [List.map_reverse]

/-- The fully folded `G` generator is the MSM of the original generators
with the `s` expansion of the round challenges. -/
theorem fold_run_Gf (u : G) (chal : List (TItem F G) → F) :
    ∀ (k : Nat) (hist : List (TItem F G)) (a b : List F) (Gv Hv : List G),
    Gv.length = 2 ^ k →
    (fold_run u chal k hist a b Gv Hv).Gf =
      [msm Gv (s_vec (fold_run u chal k hist a b Gv Hv).xs)] := by
  intro k
  induction k with
  | zero =>
    intro hist a b Gv Hv hG
    obtain ⟨g, hg⟩ := List.length_eq_one.mp (by simpa using hG)
    subst hg
    simp [fold_run, s_vec, msm]
  | succ k ih =>
    intro hist a b Gv Hv hG
    have hp : (2 : Nat) ^ (k + 1) = 2 * 2 ^ k := by rw [pow_succ]; ring
    simp only [fold_run]
    set x := chal (hist ++ [TItem.point (round_L u a b Gv Hv), TItem.point (round_R u a b Gv Hv)]) with hxdef
    rw [ih _ _ _ _ _ (fold_G_length _ _ _ (by omega))]
    congr 1
    have hGm : Gv.length / 2 = 2 ^ k := by omega
    simp only [s_vec]
    rw [fold_G, hGm]
    rw [msm_zip_combo x⁻¹ x (Gv.take (2 ^ k)) (Gv.drop (2 ^ k)) _
      (by rw [List.length_take, List.length_drop]; omega)]
    rw [← msm_smul, ← msm_smul]
    rw [← msm_append (by rw [List.length_take, scalar_product, List.length_map, s_vec_length,
      (fold_run_round_lengths u chal k _ _ _ _ _).2.2]; omega)]
    rw [List.take_append_drop]

/-- The fully folded `H` generator is the MSM of the original generators
with the mirrored expansion of the round challenges. -/
theorem fold_run_Hf (u : G) (chal : List (TItem F G) → F) :
    ∀ (k : Nat) (hist : List (TItem F G)) (a b : List F) (Gv Hv : List G),
    Hv.length = 2 ^ k →
    (fold_run u chal k hist a b Gv Hv).Hf =
      [msm Hv (t_vec (fold_run u chal k hist a b Gv Hv).xs)] := by
  intro k
  induction k with
  | zero =>
    intro hist a b Gv Hv hH
    obtain ⟨g, hg⟩ := List.length_eq_one.mp (by simpa using hH)
    subst hg
    simp [fold_run, t_vec, msm]
  | succ k ih =>
    intro hist a b Gv Hv hH
    have hp : (2 : Nat) ^ (k + 1) = 2 * 2 ^ k := by rw [pow_succ]; ring
    simp only [fold_run]
    set x := chal (hist ++ [TItem.point (round_L u a b Gv Hv), TItem.point (round_R u a b Gv Hv)]) with hxdef
    rw [ih _ _ _ _ _ (fold_H_length _ _ _ (by omega))]
    congr 1
    have hHm : Hv.length / 2 = 2 ^ k := by omega
    simp only [t_vec]
    rw [fold_H, hHm]
    rw [msm_zip_combo x x⁻¹ (Hv.take (2 ^ k)) (Hv.drop (2 ^ k)) _
      (by rw [List.length_take, List.length_drop]; omega)]
    rw [← msm_smul, ← msm_smul]
    rw [← msm_append (by rw [List.length_take, scalar_product, List.length_map, t_vec_length,
      (fold_run_round_lengths u chal k _ _ _ _ _).2.2]; omega)]
    rw [List.take_append_drop]

end FoldRunLemmas

section BoxLemmas

variable {F : Type} [Field F]

/-- Peeling the first challenge out of the box recursion: at level `k + 1`
with head challenge square `x * x`, the lower half of the box equals
`x⁻¹` times the level-`k` box and the upper half equals `x` times it. -/
theorem box_entry_split (x : F) (hx : x ≠ 0) (csq : List F) (ainv : F) (k : Nat) :
    ∀ i, i < 2 ^ (k + 1) →
      box_entry (x * x :: csq) (k + 1) (x⁻¹ * ainv) i =
        if i < 2 ^ k then x⁻¹ * box_entry csq k ainv i
        else x * box_entry csq k ainv (i - 2 ^ k) := by
  intro i
  induction i using Nat.strong_induction_on with
  | _ i ihs =>
    intro hi
    have h2k := Nat.two_pow_pos k
    match i with
    | 0 =>
      rw [if_pos h2k]
      simp [box_entry]
    | j + 1 =>
      have hjnz : j + 1 ≠ 0 := Nat.succ_ne_zero j
      have hp : (2 : Nat) ^ (k + 1) = 2 ^ k + 2 ^ k := by rw [pow_succ]; ring
      by_cases hlow : j + 1 < 2 ^ k
      · have hli : Nat.log2 (j + 1) < k := (Nat.log2_lt hjnz).mpr hlow
        have h2li := Nat.two_pow_pos (Nat.log2 (j + 1))
        have hr1 : j + 1 - 2 ^ Nat.log2 (j + 1) < j + 1 := by omega
        have hrec := ihs (j + 1 - 2 ^ Nat.log2 (j + 1)) hr1 (by omega)
        rw [if_pos (by omega)] at hrec
        simp only [box_entry]
        have hidx : k + 1 - 1 - Nat.log2 (j + 1) = (k - 1 - Nat.log2 (j + 1)) + 1 := by omega
        have hidx2 : k - 1 - Nat.log2 (j + 1) = k - 1 - Nat.log2 (j + 1) := rfl
        rw [hidx, List.getD_cons_succ, hrec]
        rw [if_pos hlow]
        have hkidx : k - 1 - Nat.log2 (j + 1) = k - 1 - Nat.log2 (j + 1) := rfl
        rw [mul_assoc]
      · have hli : Nat.log2 (j + 1) = k := by
          have h1 : k ≤ Nat.log2 (j + 1) := (Nat.le_log2 hjnz).mpr (by omega)
          have h2 : Nat.log2 (j + 1) < k + 1 := (Nat.log2_lt hjnz).mpr hi
          omega
        simp only [box_entry]
        rw [hli]
        have hidx : k + 1 - 1 - k = 0 := by omega
        rw [hidx, List.getD_cons_zero]
        have hr1 : j + 1 - 2 ^ k < j + 1 := by omega
        have hrec := ihs (j + 1 - 2 ^ k) hr1 (by omega)
        rw [if_pos (by omega)] at hrec
        rw [hrec, if_neg hlow]
        field_simp
        ring

/-- The verifier's box expansion equals the `s` expansion of the
challenges. -/
theorem box_eq_s_vec : ∀ (xs : List F), (∀ x ∈ xs, x ≠ 0) →
    (List.range (2 ^ xs.length)).map
      (box_entry (xs.map (fun y => y * y)) xs.length ((xs.map (fun y => y⁻¹)).prod)) =
    s_vec xs := by
  intro xs
  induction xs with
  | nil =>
    intro _
    have h01 : List.range 1 = [0] := rfl
    rw [List.length_nil, pow_zero, h01]
    simp [s_vec, box_entry]
  | cons x xs ih =>
    intro hnz
    have hx : x ≠ 0 := hnz x (by simp)
    have hxs : ∀ y ∈ xs, y ≠ 0 := fun y hy => hnz y (by simp [hy])
    have hp : (2 : Nat) ^ (x :: xs).length = 2 ^ xs.length + 2 ^ xs.length := by
      simp [pow_succ]; ring
    rw [hp, List.range_add, List.map_append, List.map_map]
    have hform : ∀ i, box_entry ((x :: xs).map (fun y => y * y)) (x :: xs).length
        (((x :: xs).map (fun y => y⁻¹)).prod) i =
        box_entry (x * x :: xs.map (fun y => y * y)) (xs.length + 1)
          (x⁻¹ * (xs.map (fun y => y⁻¹)).prod) i := by
      intro i
      simp
    have h1 : (List.range (2 ^ xs.length)).map
        (box_entry ((x :: xs).map (fun y => y * y)) (x :: xs).length
          (((x :: xs).map (fun y => y⁻¹)).prod)) = scalar_product (s_vec xs) x⁻¹ := by
      rw [← ih hxs, scalar_product, List.map_map]
      apply List.map_congr_left
      intro i hi
      have hi2 : i < 2 ^ xs.length := List.mem_range.mp hi
      have hsplit := box_entry_split x hx (xs.map (fun y => y * y))
        ((xs.map (fun y => y⁻¹)).prod) xs.length i (by omega)
      rw [if_pos hi2] at hsplit
      rw [hform i, hsplit]
      simp [mul_comm]
    have h2 : (List.range (2 ^ xs.length)).map
        ((fun i => box_entry ((x :: xs).map (fun y => y * y)) (x :: xs).length
          (((x :: xs).map (fun y => y⁻¹)).prod) i) ∘ (fun j => 2 ^ xs.length + j)) =
        scalar_product (s_vec xs) x := by
      rw [← ih hxs, scalar_product, List.map_map]
      apply List.map_congr_left
      intro j hj
      have hj2 : j < 2 ^ xs.length := List.mem_range.mp hj
      have hsplit := box_entry_split x hx (xs.map (fun y => y * y))
        ((xs.map (fun y => y⁻¹)).prod) xs.length (2 ^ xs.length + j) (by omega)
      rw [if_neg (by omega)] at hsplit
      have hsub : 2 ^ xs.length + j - 2 ^ xs.length = j := by omega
      rw [hsub] at hsplit
      simp only [Function.comp]
      rw [hform _, hsplit]
      simp [mul_comm]
    rw [h1, h2]
    simp [s_vec]

end BoxLemmas

section ProveSpec

variable {F : Type} [Field F] {G : Type} [AddCommGroup G] [Module F G]
variable [DecidableEq F] [DecidableEq G]

/-- The first-round generator fold with factors equals the plain fold of
the factor-scaled generators, pointwise. -/
theorem zip_pair_fold (c d : F) : ∀ (Gl Gr : List G) (fl fr : List F),
    List.zipWith (fun (gc : G × F) (hd : G × F) => (c * gc.2) • gc.1 + (d * hd.2) • hd.1)
      (Gl.zip fl) (Gr.zip fr) =
    List.zipWith (fun gl gr => c • gl + d • gr) (scale_gens fl Gl) (scale_gens fr Gr) := by
  intro Gl
  induction Gl with
  | nil => intro Gr fl fr; simp [scale_gens]
  | cons g Gl ih =>
    intro Gr fl fr
    cases Gr with
    | nil => simp [scale_gens]
    | cons g2 Gr =>
      cases fl with
      | nil => simp [scale_gens]
      | cons f fl =>
        cases fr with
        | nil => simp [scale_gens]
        | cons f2 fr =>
          simp only [List.zip_cons_cons, scale_gens, List.zipWith_cons_cons]
          rw [ih Gr fl fr]
          simp only [scale_gens]
          congr 1
          rw [smul_smul, smul_smul]

/-- The first-round `L` commitment with factors equals the plain-round `L`
commitment over the factor-scaled generators. -/
theorem round_L_scaled (u : G) (a b fG fH : List F) (Gv Hv : List G) (m : Nat)
    (ha : a.length = 2 * m) (hb : b.length = 2 * m) (hG : Gv.length = 2 * m)
    (hH : Hv.length = 2 * m) (hfG : fG.length = 2 * m) (hfH : fH.length = 2 * m) :
    round_L u a b (scale_gens fG Gv) (scale_gens fH Hv) =
      msm (Gv.drop m ++ Hv.take m ++ [u])
        (hadamard_product (a.take m) (fG.drop m) ++
          hadamard_product (b.drop m) (fH.take m) ++
          [inner_product (a.take m) (b.drop m)]) := by
  have hGd : (scale_gens fG Gv).drop m = scale_gens (fG.drop m) (Gv.drop m) := by
    simp [scale_gens, List.drop_zipWith]
  have hHt : (scale_gens fH Hv).take m = scale_gens (fH.take m) (Hv.take m) := by
    simp [scale_gens, List.take_zipWith]
  simp only [round_L]
  rw [show a.length / 2 = m from by omega]
  rw [hGd, hHt]
  rw [msm_append (by simp [scale_gens]; omega), msm_append (by simp [scale_gens]; omega)]
  rw [msm_append (by simp [hadamard_product]; omega),
    msm_append (by simp [hadamard_product]; omega)]
  rw [msm_scale_gens, msm_scale_gens]

/-- The first-round `R` commitment with factors equals the plain-round `R`
commitment over the factor-scaled generators. -/
theorem round_R_scaled (u : G) (a b fG fH : List F) (Gv Hv : List G) (m : Nat)
    (ha : a.length = 2 * m) (hb : b.length = 2 * m) (hG : Gv.length = 2 * m)
    (hH : Hv.length = 2 * m) (hfG : fG.length = 2 * m) (hfH : fH.length = 2 * m) :
    round_R u a b (scale_gens fG Gv) (scale_gens fH Hv) =
      msm (Gv.take m ++ Hv.drop m ++ [u])
        (hadamard_product (a.drop m) (fG.take m) ++
          hadamard_product (b.take m) (fH.drop m) ++
          [inner_product (a.drop m) (b.take m)]) := by
  have hGt : (scale_gens fG Gv).take m = scale_gens (fG.take m) (Gv.take m) := by
    simp [scale_gens, List.take_zipWith]
  have hHd : (scale_gens fH Hv).drop m = scale_gens (fH.drop m) (Hv.drop m) := by
    simp [scale_gens, List.drop_zipWith]
  simp only [round_R]
  rw [show a.length / 2 = m from by omega]
  rw [hGt, hHd]
  rw [msm_append (by simp [scale_gens]; omega), msm_append (by simp [scale_gens]; omega)]
  rw [msm_append (by simp [hadamard_product]; omega),
    msm_append (by simp [hadamard_product]; omega)]
  rw [msm_scale_gens, msm_scale_gens]

/-- The first-round generator fold with factors equals the plain fold of
the factor-scaled generators. -/
theorem fold_G_scaled (x : F) (fG : List F) (Gv : List G) (m : Nat)
    (hG : Gv.length = 2 * m) (hfG : fG.length = 2 * m) :
    List.zipWith (fun (gc : G × F) (hd : G × F) =>
        (x⁻¹ * gc.2) • gc.1 + (x * hd.2) • hd.1)
      ((Gv.take m).zip (fG.take m)) ((Gv.drop m).zip (fG.drop m)) =
    fold_G x (scale_gens fG Gv) := by
  have hl : (scale_gens fG Gv).length / 2 = m := by simp [scale_gens]; omega
  rw [fold_G, hl]
  have hGt : (scale_gens fG Gv).take m = scale_gens (fG.take m) (Gv.take m) := by
    simp [scale_gens, List.take_zipWith]
  have hGd : (scale_gens fG Gv).drop m = scale_gens (fG.drop m) (Gv.drop m) := by
    simp [scale_gens, List.drop_zipWith]
  rw [hGt, hGd, zip_pair_fold]

/-- The first-round generator fold with factors equals the plain fold of
the factor-scaled generators (`H` side). -/
theorem fold_H_scaled (x : F) (fH : List F) (Hv : List G) (m : Nat)
    (hH : Hv.length = 2 * m) (hfH : fH.length = 2 * m) :
    List.zipWith (fun (gc : G × F) (hd : G × F) =>
        (x * gc.2) • gc.1 + (x⁻¹ * hd.2) • hd.1)
      ((Hv.take m).zip (fH.take m)) ((Hv.drop m).zip (fH.drop m)) =
    fold_H x (scale_gens fH Hv) := by
  have hl : (scale_gens fH Hv).length / 2 = m := by simp [scale_gens]; omega
  rw [fold_H, hl]
  have hHt : (scale_gens fH Hv).take m = scale_gens (fH.take m) (Hv.take m) := by
    simp [scale_gens, List.take_zipWith]
  have hHd : (scale_gens fH Hv).drop m = scale_gens (fH.drop m) (Hv.drop m) := by
    simp [scale_gens, List.drop_zipWith]
  rw [hHt, hHd, zip_pair_fold]

/-- The verifier re-derives exactly the prover's round challenges when fed
the prover's `L`, `R` values starting from the same transcript state. -/
theorem fold_run_derive_xs (u : G) (chal : List (TItem F G) → F) :
    ∀ (k : Nat) (hist : List (TItem F G)) (a b : List F) (Gv Hv : List G),
    derive_xs chal (fold_run u chal k hist a b Gv Hv).Ls
      (fold_run u chal k hist a b Gv Hv).Rs hist = (fold_run u chal k hist a b Gv Hv).xs := by
  intro k
  induction k with
  | zero => intro hist a b Gv Hv; simp [fold_run, derive_xs]
  | succ k ih =>
    intro hist a b Gv Hv
    simp only [fold_run, derive_xs, List.cons.injEq, true_and]
    have := ih (hist ++ [TItem.point (round_L u a b Gv Hv),
        TItem.point (round_R u a b Gv Hv)] ++
        [TItem.scalar (chal (hist ++ [TItem.point (round_L u a b Gv Hv),
          TItem.point (round_R u a b Gv Hv)]))])
        (fold_a (chal (hist ++ [TItem.point (round_L u a b Gv Hv),
          TItem.point (round_R u a b Gv Hv)])) a)
        (fold_b (chal (hist ++ [TItem.point (round_L u a b Gv Hv),
          TItem.point (round_R u a b Gv Hv)])) b)
        (fold_G (chal (hist ++ [TItem.point (round_L u a b Gv Hv),
          TItem.point (round_R u a b Gv Hv)])) Gv)
        (fold_H (chal (hist ++ [TItem.point (round_L u a b Gv Hv),
          TItem.point (round_R u a b Gv Hv)])) Hv)
    simpa [List.append_assoc, List.cons_append, List.nil_append] using this

/-- Under a never-zero challenge oracle the faithful prover loop returns
exactly the pure round data. -/
theorem ipaLoop_eq_fold_run (u : G) (chal : List (TItem F G) → F)
    (hchal : ∀ l, chal l ≠ 0) :
    ∀ (fuel : Nat) (hist : List (TItem F G)) (a b : List F) (Gv Hv : List G),
    ipaLoop u chal fuel hist a b Gv Hv = .ok
      ((fold_run u chal fuel hist a b Gv Hv).Ls, (fold_run u chal fuel hist a b Gv Hv).Rs,
        (fold_run u chal fuel hist a b Gv Hv).xs, (fold_run u chal fuel hist a b Gv Hv).af,
        (fold_run u chal fuel hist a b Gv Hv).bf) := by
  intro fuel
  induction fuel with
  | zero => intro hist a b Gv Hv; simp [ipaLoop, fold_run]
  | succ fuel ih =>
    intro hist a b Gv Hv
    simp only [ipaLoop, fold_run]
    rw [if_neg (hchal _)]
    rw [ih]

end ProveSpec

section ProveSpec2

variable {F : Type} [Field F] {G : Type} [AddCommGroup G] [Module F G]
variable [DecidableEq F] [DecidableEq G]

/-- The first-round scalar fold written with explicit take/drop indices
equals `fold_a`. -/
theorem fold_a_eq (x : F) (a : List F) (m : Nat) (ha : a.length = 2 * m) :
    vec_add (scalar_product (a.take m) x) (scalar_product (a.drop m) x⁻¹) = fold_a x a := by
  rw [fold_a, show a.length / 2 = m from by omega]

/-- The first-round scalar fold written with explicit take/drop indices
equals `fold_b`. -/
theorem fold_b_eq (x : F) (b : List F) (m : Nat) (hb : b.length = 2 * m) :
    vec_add (scalar_product (b.take m) x⁻¹) (scalar_product (b.drop m) x) = fold_b x b := by
  rw [fold_b, show b.length / 2 = m from by omega]

/-- Under a never-zero challenge oracle and well-formed power-of-two
inputs, `InnerProductProtocol::prove` succeeds and returns exactly the
round data of the pure run over the factor-scaled generators (the special
first round with factors coincides with a plain round on the scaled
generators). -/
theorem ipaProve_spec (params : InnerProductParam F G) (chal : List (TItem F G) → F)
    (a b : List F) (k : Nat)
    (hG : params.vec_G.length = 2 ^ k) (hH : params.vec_H.length = 2 ^ k)
    (hA : a.length = 2 ^ k) (hB : b.length = 2 ^ k)
    (hfG : params.factors_G.length = 2 ^ k) (hfH : params.factors_H.length = 2 ^ k)
    (hchal : ∀ l, chal l ≠ 0) :
    ipaProve params chal a b = .ok
      ⟨(fold_run params.u chal k [TItem.scalar ((2 ^ k : Nat) : F)] a b
          (scale_gens params.factors_G params.vec_G)
          (scale_gens params.factors_H params.vec_H)).Ls,
        (fold_run params.u chal k [TItem.scalar ((2 ^ k : Nat) : F)] a b
          (scale_gens params.factors_G params.vec_G)
          (scale_gens params.factors_H params.vec_H)).Rs,
        (fold_run params.u chal k [TItem.scalar ((2 ^ k : Nat) : F)] a b
          (scale_gens params.factors_G params.vec_G)
          (scale_gens params.factors_H params.vec_H)).af.getD 0 0,
        (fold_run params.u chal k [TItem.scalar ((2 ^ k : Nat) : F)] a b
          (scale_gens params.factors_G params.vec_G)
          (scale_gens params.factors_H params.vec_H)).bf.getD 0 0,
        (fold_run params.u chal k [TItem.scalar ((2 ^ k : Nat) : F)] a b
          (scale_gens params.factors_G params.vec_G)
          (scale_gens params.factors_H params.vec_H)).xs⟩ := by
  simp only [ipaProve]
  rw [hG]
  rw [if_neg (by simp [hG, hH, hA, hB, hfG, hfH])]
  rw [if_neg (by simp [is_power_of_two_two_pow])]
  cases k with
  | zero =>
    rw [if_pos (by norm_num)]
    simp [fold_run]
  | succ k2 =>
    have h1 : (1 : Nat) < 2 ^ (k2 + 1) := Nat.one_lt_two_pow_iff.mpr (Nat.succ_ne_zero k2)
    have hp : (2 : Nat) ^ (k2 + 1) = 2 * 2 ^ k2 := by rw [pow_succ]; ring
    rw [if_neg (by omega)]
    rw [show (2 : Nat) ^ (k2 + 1) / 2 = 2 ^ k2 from by omega]
    rw [← round_L_scaled params.u a b params.factors_G params.factors_H params.vec_G
      params.vec_H (2 ^ k2) (by omega) (by omega) (by omega) (by omega) (by omega) (by omega)]
    rw [← round_R_scaled params.u a b params.factors_G params.factors_H params.vec_G
      params.vec_H (2 ^ k2) (by omega) (by omega) (by omega) (by omega) (by omega) (by omega)]
    rw [if_neg (hchal _)]
    rw [fold_a_eq _ a (2 ^ k2) (by omega), fold_b_eq _ b (2 ^ k2) (by omega)]
    rw [fold_G_scaled _ params.factors_G params.vec_G (2 ^ k2) (by omega) (by omega)]
    rw [fold_H_scaled _ params.factors_H params.vec_H (2 ^ k2) (by omega) (by omega)]
    rw [Nat.log2_two_pow, Nat.add_sub_cancel]
    rw [ipaLoop_eq_fold_run params.u chal hchal]
    conv_rhs => rw [fold_run]

end ProveSpec2

section Completeness

variable {F : Type} [Field F] {G : Type} [AddCommGroup G] [Module F G]
variable [DecidableEq F] [DecidableEq G]

/-- The verifier's negated `x²` column equals the negated sum of
`x_j²·L_j`. -/
theorem msm_neg_zip (f : F → F) : ∀ (Ls : List G) (xs : List F),
    msm Ls ((xs.map f).map (fun xi => -xi)) =
      -(List.zipWith (fun xi L => f xi • L) xs Ls).sum := by
  intro Ls
  induction Ls with
  | nil => intro xs; simp [msm]
  | cons L Ls ih =>
    intro xs
    cases xs with
    | nil => simp [msm]
    | cons x xs =>
      have ih2 := ih xs
      simp only [msm] at ih2 ⊢
      simp only [List.map_cons, List.zipWith_cons_cons, List.sum_cons]
      rw [ih2, neg_smul]
      abel

/-- C1 (amended): IPA completeness for every power-of-two length
`n = 2^k` with `k < 32` (the verifier refuses `log_n ≥ 32`), every
parameter set with `|G| = |H| = |f_G| = |f_H| = n`, all scalar vectors
`a, b` of length `n`, and every transcript challenge oracle that never
returns zero: `prove` succeeds and `verify` accepts the target
`P = MSM(G, a ∘ f_G) + MSM(H, b ∘ f_H) + u·⟨a,b⟩`. -/
theorem ipa_completeness (params : InnerProductParam F G) (chal : List (TItem F G) → F)
    (a b : List F) (k : Nat) (hk : k < 32)
    (hG : params.vec_G.length = 2 ^ k) (hH : params.vec_H.length = 2 ^ k)
    (hA : a.length = 2 ^ k) (hB : b.length = 2 ^ k)
    (hfG : params.factors_G.length = 2 ^ k) (hfH : params.factors_H.length = 2 ^ k)
    (hchal : ∀ l, chal l ≠ 0) :
    ∃ pf, ipaProve params chal a b = .ok pf ∧
      ipaVerify (2 ^ k)
        (msm params.vec_G (hadamard_product a params.factors_G) +
          msm params.vec_H (hadamard_product b params.factors_H) +
          inner_product a b • params.u) params chal pf = .ok () := by
  have hsG : (scale_gens params.factors_G params.vec_G).length = 2 ^ k := by
    simp [scale_gens]; omega
  have hsH : (scale_gens params.factors_H params.vec_H).length = 2 ^ k := by
    simp [scale_gens]; omega
  set hist0 : List (TItem F G) := [TItem.scalar ((2 ^ k : Nat) : F)] with hist0_def
  set o := fold_run params.u chal k hist0 a b
    (scale_gens params.factors_G params.vec_G)
    (scale_gens params.factors_H params.vec_H) with o_def
  have hLl : o.Ls.length = k := (fold_run_round_lengths _ _ _ _ _ _ _ _).1
  have hRl : o.Rs.length = k := (fold_run_round_lengths _ _ _ _ _ _ _ _).2.1
  have hxl : o.xs.length = k := (fold_run_round_lengths _ _ _ _ _ _ _ _).2.2
  have hfin := fold_run_final_lengths params.u chal k hist0 a b
    (scale_gens params.factors_G params.vec_G)
    (scale_gens params.factors_H params.vec_H) hA hB hsG hsH
  obtain ⟨af0, haf⟩ := List.length_eq_one.mp hfin.1
  obtain ⟨bf0, hbf⟩ := List.length_eq_one.mp hfin.2.1
  have hder : derive_xs chal o.Ls o.Rs hist0 = o.xs := fold_run_derive_xs _ _ _ _ _ _ _ _
  have hnzxs : ∀ x ∈ o.xs, x ≠ 0 := by
    rw [← hder]
    exact derive_xs_nonzero chal hchal _ _ _
  refine ⟨⟨o.Ls, o.Rs, o.af.getD 0 0, o.bf.getD 0 0, o.xs⟩,
    ipaProve_spec params chal a b k hG hH hA hB hfG hfH hchal, ?_⟩
  simp only [ipaVerify]
  rw [if_neg (by simp [hG])]
  rw [if_neg (by simp only [hLl]; omega)]
  rw [if_neg (by simp [hLl])]
  rw [ipaVerChals_spec chal o.Ls o.Rs o.xs hist0 (by omega) (by omega) (by rw [hder]; exact hnzxs)]
  rw [if_pos hder]
  dsimp only
  rw [if_neg (by simp [hfG, hfH])]
  have hbox : (List.range (2 ^ k)).map
      (box_entry (o.xs.map (fun x => x * x)) o.Ls.length ((o.xs.map (fun x => x⁻¹)).prod)) =
      s_vec o.xs := by
    have := box_eq_s_vec o.xs hnzxs
    rw [hxl] at this
    rw [hLl, this]
  rw [hbox]
  have hsvl : (s_vec o.xs).length = 2 ^ k := by rw [s_vec_length, hxl]
  rw [← o_def] at hfin
  have haf2 := haf
  have hbf2 := hbf
  rw [← o_def] at haf2 hbf2
  rw [if_neg (by
    simp only [List.length_append, List.length_cons, List.length_nil, List.length_map,
      List.length_zipWith, List.length_reverse, scalar_product, hadamard_product,
      hsvl, hG, hH, hfG, hfH, hLl, hRl, hxl]
    omega)]
  rw [if_pos ?_]
  have hinv := fold_run_invariant params.u chal hchal k hist0 a b
    (scale_gens params.factors_G params.vec_G)
    (scale_gens params.factors_H params.vec_H) hA hB hsG hsH
  have hGf := fold_run_Gf params.u chal k hist0 a b
    (scale_gens params.factors_G params.vec_G)
    (scale_gens params.factors_H params.vec_H) hsG
  have hHf := fold_run_Hf params.u chal k hist0 a b
    (scale_gens params.factors_G params.vec_G)
    (scale_gens params.factors_H params.vec_H) hsH
  rw [← o_def] at hinv hGf hHf
  have hm1 : ∀ (g : G) (c : F), msm [g] [c] = c • g := by
    intro g c; simp [msm]
  have hip1 : inner_product [af0] [bf0] = af0 * bf0 := by simp [inner_product]
  rw [hGf, hHf, haf2, hbf2, hm1, hm1, hip1] at hinv
  rw [msm_append (by
      simp only [List.length_append, List.length_cons, List.length_nil, List.length_map,
        List.length_zipWith, List.length_reverse, scalar_product, hadamard_product,
        hsvl, hG, hH, hfG, hfH, hLl, hRl, hxl]
      omega),
    msm_append (by
      simp only [List.length_append, List.length_cons, List.length_nil, List.length_map,
        List.length_zipWith, List.length_reverse, scalar_product, hadamard_product,
        hsvl, hG, hH, hfG, hfH, hLl, hxl]
      omega),
    msm_append (by
      simp only [List.length_append, List.length_cons, List.length_nil, List.length_map,
        List.length_zipWith, List.length_reverse, scalar_product, hadamard_product,
        hsvl, hG, hH, hfG, hfH]
      omega),
    msm_append (by
      simp only [List.length_cons, List.length_nil, List.length_map, List.length_zipWith,
        List.length_reverse, scalar_product, hadamard_product, hsvl, hG, hfG] <;> omega)]
  rw [haf2, hbf2]
  simp only [List.getD_cons_zero]
  rw [msm_smul, msm_smul]
  have hmsG : msm params.vec_G (hadamard_product (s_vec o.xs) params.factors_G) =
      msm (scale_gens params.factors_G params.vec_G) (s_vec o.xs) :=
    (msm_scale_gens _ _ _).symm
  have hmsH : msm params.vec_H (hadamard_product (s_vec o.xs).reverse params.factors_H) =
      msm (scale_gens params.factors_H params.vec_H) ((s_vec o.xs).reverse) :=
    (msm_scale_gens _ _ _).symm
  rw [hmsG, hmsH, ← t_vec_eq_reverse_s_vec]
  rw [msm_neg_zip (fun x => x * x) o.Ls o.xs, msm_neg_zip (fun x => x⁻¹ * x⁻¹) o.Rs o.xs]
  rw [hm1]
  have hPscaled : msm params.vec_G (hadamard_product a params.factors_G) =
      msm (scale_gens params.factors_G params.vec_G) a := (msm_scale_gens _ _ _).symm
  have hPscaledH : msm params.vec_H (hadamard_product b params.factors_H) =
      msm (scale_gens params.factors_H params.vec_H) b := (msm_scale_gens _ _ _).symm
  rw [hPscaled, hPscaledH]
  rw [← sub_eq_zero] at hinv ⊢
  rw [← hinv]
  abel

end Completeness

/-- Concrete IPA parameters for the completeness witness. -/
def ipa_wit_params : InnerProductParam (ZMod 5) (ZMod 5) :=
  ⟨[1, 1], [1, 1], 3, [1, 2], [2, 1]⟩

/-- C1 witness: a concrete honest run at `n = 2`, `k = 1` over `ZMod 5`
with the constant-one challenge oracle. -/
theorem ipa_completeness_witness :
    ((1 : Nat) < 32 ∧ ipa_wit_params.vec_G.length = 2 ^ 1 ∧
      (∀ l : List (TItem (ZMod 5) (ZMod 5)), (fun _ => (1 : ZMod 5)) l ≠ 0)) ∧
    (∃ pf, ipaProve ipa_wit_params (fun _ => 1) ([1, 2] : List (ZMod 5))
        ([3, 1] : List (ZMod 5)) = .ok pf ∧
      ipaVerify (2 ^ 1)
        (msm ipa_wit_params.vec_G
            (hadamard_product ([1, 2] : List (ZMod 5)) ipa_wit_params.factors_G) +
          msm ipa_wit_params.vec_H
            (hadamard_product ([3, 1] : List (ZMod 5)) ipa_wit_params.factors_H) +
          inner_product ([1, 2] : List (ZMod 5)) ([3, 1] : List (ZMod 5)) •
            ipa_wit_params.u)
        ipa_wit_params (fun _ => 1) pf = .ok ()) := by
  refine ⟨⟨by norm_num, by decide, fun l => one_ne_zero⟩, ?_⟩
  exact ipa_completeness ipa_wit_params (fun _ => 1) ([1, 2] : List (ZMod 5))
    ([3, 1] : List (ZMod 5)) 1 (by norm_num) (by decide) (by decide) (by decide) (by decide)
    (by decide) (by decide) (fun l => one_ne_zero)
/-- Concrete parameters of length `2^32` for the completeness
counterexample. -/
def ipa_cex_params : InnerProductParam (ZMod 5) (ZMod 5) :=
  ⟨List.replicate (2 ^ 32) 1, List.replicate (2 ^ 32) 1, 1,
    List.replicate (2 ^ 32) 1, List.replicate (2 ^ 32) 1⟩

/-- Constant-one challenge oracle for the counterexample. -/
def ipa_cex_chal : List (TItem (ZMod 5) (ZMod 5)) → ZMod 5 := fun _ => 1

/-- Round data of the honest prover run at length `2^32`. -/
def ipa_cex_run : FoldOut (ZMod 5) (ZMod 5) :=
  fold_run ipa_cex_params.u ipa_cex_chal 32 [TItem.scalar ((2 ^ 32 : Nat) : ZMod 5)]
    (List.replicate (2 ^ 32) 0) (List.replicate (2 ^ 32) 0)
    (scale_gens ipa_cex_params.factors_G ipa_cex_params.vec_G)
    (scale_gens ipa_cex_params.factors_H ipa_cex_params.vec_H)

/-- The honest proof produced by the prover at length `2^32`. -/
def ipa_cex_proof : InnerProductProof (ZMod 5) (ZMod 5) :=
  ⟨ipa_cex_run.Ls, ipa_cex_run.Rs, ipa_cex_run.af.getD 0 0, ipa_cex_run.bf.getD 0 0,
    ipa_cex_run.xs⟩

/-- The verifier refuses any proof carrying at least 32 rounds with an
`InvalidParameters` error, before looking at anything else past the length
assertion. -/
theorem ipaVerify_size_refusal {F : Type} [Field F] {G : Type} [AddCommGroup G]
    [Module F G] [DecidableEq F] [DecidableEq G]
    (n : Nat) (P : G) (params : InnerProductParam F G)
    (chal : List (TItem F G) → F) (proof : InnerProductProof F G)
    (h1 : params.vec_G.length = n) (h2 : 32 ≤ proof.vec_L.length) :
    ipaVerify n P params chal proof =
      .err (.InvalidParameters "vector size is too large") := by
  simp only [ipaVerify]
  rw [if_neg (by simp [h1]), if_pos h2]

/-- C1 counterexample: at the power-of-two length `n = 2^32` the honest
prover succeeds (emitting 32 rounds), yet the verifier refuses the honest
proof of the true statement with an `InvalidParameters` error because
`log_n ≥ 32`; the claim as stated over every power-of-two `n` is false. -/
theorem ipa_completeness_counterexample :
    ipaProve ipa_cex_params ipa_cex_chal (List.replicate (2 ^ 32) (0 : ZMod 5))
      (List.replicate (2 ^ 32) (0 : ZMod 5)) = .ok ipa_cex_proof ∧
    ipaVerify (2 ^ 32)
      (msm ipa_cex_params.vec_G
          (hadamard_product (List.replicate (2 ^ 32) (0 : ZMod 5))
            ipa_cex_params.factors_G) +
        msm ipa_cex_params.vec_H
          (hadamard_product (List.replicate (2 ^ 32) (0 : ZMod 5))
            ipa_cex_params.factors_H) +
        inner_product (List.replicate (2 ^ 32) (0 : ZMod 5))
          (List.replicate (2 ^ 32) (0 : ZMod 5)) • ipa_cex_params.u)
      ipa_cex_params ipa_cex_chal ipa_cex_proof =
      .err (.InvalidParameters "vector size is too large") := by
  constructor
  · exact ipaProve_spec ipa_cex_params ipa_cex_chal (List.replicate (2 ^ 32) (0 : ZMod 5))
      (List.replicate (2 ^ 32) (0 : ZMod 5)) 32
      (by show (List.replicate (2 ^ 32) (1 : ZMod 5)).length = 2 ^ 32
          rw [List.length_replicate])
      (by show (List.replicate (2 ^ 32) (1 : ZMod 5)).length = 2 ^ 32
          rw [List.length_replicate])
      (by rw [List.length_replicate]) (by rw [List.length_replicate])
      (by show (List.replicate (2 ^ 32) (1 : ZMod 5)).length = 2 ^ 32
          rw [List.length_replicate])
      (by show (List.replicate (2 ^ 32) (1 : ZMod 5)).length = 2 ^ 32
          rw [List.length_replicate])
      (fun l => one_ne_zero)
  · have hL : ipa_cex_proof.vec_L.length = 32 := by
      show ipa_cex_run.Ls.length = 32
      exact (fold_run_round_lengths _ _ _ _ _ _ _ _).1
    have h1 : ipa_cex_params.vec_G.length = 2 ^ 32 := by
      show (List.replicate (2 ^ 32) (1 : ZMod 5)).length = 2 ^ 32
      rw [List.length_replicate]
    exact ipaVerify_size_refusal _ _ _ _ _ h1 hL.ge

/-- Ring-signature public parameters, from
`ringsignature/src/ringsig/structs.rs` (`RingSignatureParams`). -/
structure RingSignatureParams (F G : Type) where
  num_witness : Nat
  num_pub_inputs : Nat
  com_parameters : List (PedersenParams G)
  message : String
  vec_pk : List G
deriving DecidableEq

/-- Round-4 openings of the ring signature, from
`ringsignature/src/ringsig/structs.rs` (`Openings`). -/
structure Openings (F : Type) where
  zeta : List F
  eta : List F
  hat_t : F
  taux : F
  mu : F
  fs : F
deriving DecidableEq

/-- The linear ring signature tuple, from
`ringsignature/src/ringsig/structs.rs` (`LinearRingSignature`). -/
structure LinearRingSignature (F G : Type) where
  commitments : List G
  openings : Openings F
  challenges : List F
  digest : String
deriving DecidableEq

section RingSigDefs

variable {F : Type} [Field F] {G : Type} [AddCommGroup G] [Module F G]
variable [DecidableEq F] [DecidableEq G]

/-- `RingSignatureScheme::setup` of the linear variant
(`ringsignature/src/ringsig/protocol_linear.rs`): three Pedersen setups
(sizes `s`, `s`, `1`, consuming RNG counters `0..6`), the signer key
`pk = commit(key_params, wit, 0)`, the decoy block
`vec![C::Affine::rand(rng); s-1]` (ONE point drawn at counter `6`,
cloned `s-1` times), then `pk` is pushed and the ring shuffled; the
indicator vector is appended to the witness.  Returns the parameters and
the extended witness (`wit` is `&mut` in Rust). -/
def linearSetup (rs : Nat → F) (rp : Nat → G) (gen0 : G) (sigma : List Nat)
    (wit : List F) (msg : String) (supported_size : Nat) :
    Except SigmaErrors (RingSignatureParams F G × List F) :=
  let c1 := PedersenCommitmentScheme.setup rs rp 0 gen0 supported_size
  let c2 := PedersenCommitmentScheme.setup rs rp c1.2 gen0 supported_size
  let ck := PedersenCommitmentScheme.setup rs rp c2.2 gen0 1
  match PedersenCommitmentScheme.commit ck.1 wit 0 with
  | .error e => .error (.CommitmentError e)
  | .ok pk =>
    let vec_pk0 := List.replicate (supported_size - 1) (rp ck.2) ++ [pk]
    let sh := shuffle (F := F) sigma vec_pk0 pk
    let wit2 := wit ++ sh.2
    .ok (⟨wit2.length, supported_size, [c1.1, c2.1, ck.1], msg, sh.1⟩, wit2)

/-- `RingSignatureScheme::setup` of the compressed variant
(`ringsignature/src/ringsig/protocol_compressed_modification.rs`): five
Pedersen setups (sizes `s`, `s`, `s`, `s`, `1`, consuming RNG counters
`0..10`), the signer key, the decoy block
`vec![C::Affine::rand(rng); 2*s-1]` (ONE point drawn at counter `10`,
cloned `2*s-1` times), push `pk`, shuffle, extend the witness. -/
def compressedSetup (rs : Nat → F) (rp : Nat → G) (gen0 : G) (sigma : List Nat)
    (wit : List F) (msg : String) (supported_size : Nat) :
    Except SigmaErrors (RingSignatureParams F G × List F) :=
  let c1 := PedersenCommitmentScheme.setup rs rp 0 gen0 supported_size
  let c2 := PedersenCommitmentScheme.setup rs rp c1.2 gen0 supported_size
  let c3 := PedersenCommitmentScheme.setup rs rp c2.2 gen0 supported_size
  let c4 := PedersenCommitmentScheme.setup rs rp c3.2 gen0 supported_size
  let ck := PedersenCommitmentScheme.setup rs rp c4.2 gen0 1
  match PedersenCommitmentScheme.commit ck.1 wit 0 with
  | .error e => .error (.CommitmentError e)
  | .ok pk =>
    let vec_pk0 := List.replicate (2 * supported_size - 1) (rp ck.2) ++ [pk]
    let sh := shuffle (F := F) sigma vec_pk0 pk
    let wit2 := wit ++ sh.2
    .ok (⟨wit2.length, supported_size, [c1.1, c2.1, c3.1, c4.1, ck.1], msg, sh.1⟩, wit2)

/-- The linear prover's masking vector `r₀`
(`protocol_linear.rs` line 110): `vec![C::ScalarField::rand(rng);
vec_b0.len()]` draws ONE scalar (stream index 2, after `alpha`, `beta`)
and repeats it `len` times. -/
def linear_vec_r0 (rs : Nat → F) (len : Nat) : List F :=
  List.replicate len (rs 2)

/-- The linear prover's masking vector `r₁`
(`protocol_linear.rs` line 111): one scalar (stream index 3) repeated. -/
def linear_vec_r1 (rs : Nat → F) (len : Nat) : List F :=
  List.replicate len (rs 3)

/-- The compressed prover's masking vector `r₀`
(`protocol_compressed_modification.rs` line 164): one scalar (stream
index 4, after `alpha_1..alpha_4`) repeated. -/
def compressed_vec_r0 (rs : Nat → F) (len : Nat) : List F :=
  List.replicate len (rs 4)

/-- The compressed prover's masking vector `r₁` (line 165). -/
def compressed_vec_r1 (rs : Nat → F) (len : Nat) : List F :=
  List.replicate len (rs 5)

/-- The compressed prover's masking vector `r₂` (line 166). -/
def compressed_vec_r2 (rs : Nat → F) (len : Nat) : List F :=
  List.replicate len (rs 6)

/-- The compressed prover's masking vector `r₃` (line 167). -/
def compressed_vec_r3 (rs : Nat → F) (len : Nat) : List F :=
  List.replicate len (rs 7)

/-- The `fs` accumulation loop of the linear prover
(`protocol_linear.rs` lines 183-192): walk the terms
`powers_yn[i] * vec_b[i]`; each nonzero term consumes the next secret key
`vec_sk[j]` — Rust indexing panics when `j` runs past the end.  Returns
the final `(j, sum)`. -/
def fs_loop (vec_sk : List F) : List F → Nat → F → RunResult (Nat × F)
  | [], j, sum => .ok (j, sum)
  | t :: ts, j, sum =>
    if t ≠ 0 then
      if h : j < vec_sk.length then
        fs_loop vec_sk ts (j + 1) (sum + t * vec_sk.get ⟨j, h⟩)
      else .panic "index out of bounds"
    else fs_loop vec_sk ts j sum

/-- `RingSignatureScheme::prove` of the linear variant
(`protocol_linear.rs`), with the RNG as the scalar draw stream `rs`
(draws: `alpha = rs 0`, `beta = rs 1`, `r₀`-draw `rs 2`, `r₁`-draw
`rs 3`, `r_s = rs 4`, `tau1 = rs 5`, `tau2 = rs 6`), the Fiat-Shamir
transcript as the challenge oracle `chal` over the absorbed items, and
`sha256::digest` as the abstract string hash `hashStr`.  Explicit guards
model the Rust panics: parameter indexing, the `assert!` on the bit
constraints, the toolbox length asserts (first hit by
`hadamard_product(&vec_r0, &powers_yn)` when `|vec_b| ≠ n`), the
`C::msm(..).unwrap()`, the secret-key indexing inside the `fs` loop and
the final `assert_eq!(j, vec_sk.len())`. -/
def linearProve (rs : Nat → F) (chal : List (TItem F G) → F) (hashStr : String → String)
    (params : RingSignatureParams F G) (wit : List F) :
    RunResult (LinearRingSignature F G) :=
  let hist0 : List (TItem F G) := params.vec_pk.map TItem.point
  if params.com_parameters.length < 3 then .panic "index out of bounds" else
  let param_g_u := params.com_parameters.getD 0 ⟨0, []⟩
  let param_h_v := params.com_parameters.getD 1 ⟨0, []⟩
  let param_key := params.com_parameters.getD 2 ⟨0, []⟩
  let vec_sk := wit.take (wit.length - params.num_pub_inputs)
  let vec_b := wit.drop (wit.length - params.num_pub_inputs)
  let vec_b0 := vec_b
  let vec_b1 := vec_b.map (fun b => 1 - b)
  let constraint_1 := (List.zipWith (fun b0i b1i => decide (b0i + b1i = (1 : F))) vec_b0 vec_b1).all id
  let constraint_2 := (List.zipWith (fun b0i b1i => decide (b0i * b1i = (0 : F))) vec_b0 vec_b1).all id
  if constraint_1 && constraint_2 then
    let alpha := rs 0
    let beta := rs 1
    let vec_r0 := linear_vec_r0 rs vec_b0.length
    let vec_r1 := linear_vec_r1 rs vec_b1.length
    match PedersenCommitmentScheme.commit param_g_u vec_b0 alpha with
    | .error e => .err (.CommitmentError e)
    | .ok cA1 =>
    match PedersenCommitmentScheme.commit param_h_v vec_b1 0 with
    | .error e => .err (.CommitmentError e)
    | .ok cA2 =>
    let com_A := cA1 + cA2
    match PedersenCommitmentScheme.commit param_g_u vec_r0 beta with
    | .error e => .err (.CommitmentError e)
    | .ok cB1 =>
    match PedersenCommitmentScheme.commit param_h_v vec_r1 0 with
    | .error e => .err (.CommitmentError e)
    | .ok cB2 =>
    let com_B := cB1 + cB2
    let hist1 := hist0 ++ [TItem.point com_A, TItem.point com_B]
    let y := chal hist1
    let hist2 := hist1 ++ [TItem.scalar y]
    let z := chal hist2
    let hist3 := hist2 ++ [TItem.scalar z]
    let powers_yn := generate_powers y params.num_pub_inputs
    let vec_z1n := List.replicate params.num_pub_inputs z
    if vec_b0.length ≠ params.num_pub_inputs then
      .panic "Vectors must be of the same length" else
    let vec_r0_yn := hadamard_product vec_r0 powers_yn
    let vec_z1n_b1 := vec_add vec_z1n vec_b1
    let vec_b0_z1n_yn := hadamard_product (vec_add vec_z1n vec_b0) powers_yn
    let t1 := inner_product vec_r0_yn vec_z1n_b1 + inner_product vec_b0_z1n_yn vec_r1
    let t2 := inner_product vec_r0_yn vec_r1
    let rs_draw := rs 4
    let neg_rs := -rs_draw
    let tau1 := rs 5
    let tau2 := rs 6
    if params.vec_pk.length ≠ vec_r0_yn.length then .panic "called unwrap on Err" else
    match PedersenCommitmentScheme.commit param_key [neg_rs] 0 with
    | .error e => .err (.CommitmentError e)
    | .ok cE2 =>
    let com_E := msm params.vec_pk vec_r0_yn + cE2
    let param_u_v : PedersenParams G := ⟨param_h_v.h, [param_g_u.h]⟩
    match PedersenCommitmentScheme.commit param_u_v [tau1] t1 with
    | .error e => .err (.CommitmentError e)
    | .ok com_T1 =>
    match PedersenCommitmentScheme.commit param_u_v [tau2] t2 with
    | .error e => .err (.CommitmentError e)
    | .ok com_T2 =>
    let hist4 := hist3 ++ [TItem.point com_E, TItem.point com_T1, TItem.point com_T2]
    let h := hashStr params.message
    let hist5 := hist4 ++ [TItem.str h]
    let x := chal hist5
    let b0_z1n_r0x := vec_add vec_b0 (vec_add vec_z1n (scalar_product vec_r0 x))
    let zeta := hadamard_product b0_z1n_r0x powers_yn
    let eta := vec_add vec_b1 (vec_add vec_z1n (scalar_product vec_r1 x))
    let hat_t := inner_product zeta eta
    let taux := tau1 * x + tau2 * x * x
    let mu := alpha + beta * x
    match fs_loop vec_sk (List.zipWith (fun p b => p * b) powers_yn vec_b) 0 0 with
    | .err e => .err e
    | .panic s => .panic s
    | .ok jsum =>
    let fs := jsum.2 + rs_draw * x
    if jsum.1 ≠ vec_sk.length then .panic "assertion failed" else
    .ok ⟨[com_A, com_B, com_E, com_T1, com_T2], ⟨zeta, eta, hat_t, taux, mu, fs⟩, [y, z, x], h⟩
  else .panic "assertion failed"

/-- `RingSignatureScheme::verify` of the linear variant
(`protocol_linear.rs`), mirroring the source order exactly: parameter and
proof indexing (panics), challenge re-derivation, the digest
`assert_eq!` (PANICS on mismatch, before the challenge comparison), the
challenge cross-check (the only `InvalidProof` return), then the four
algebraic checks, each a labelled `assert_eq!` panic; commitment-length
failures surface as `CommitmentError`; `y.inverse().unwrap()` and the two
`C::msm(..).unwrap()` calls panic when their preconditions fail. -/
def linearVerify (chal : List (TItem F G) → F) (hashStr : String → String)
    (params : RingSignatureParams F G) (proof : LinearRingSignature F G) :
    RunResult Bool :=
  let hist0 : List (TItem F G) := params.vec_pk.map TItem.point
  if params.com_parameters.length < 3 then .panic "index out of bounds" else
  let param_g_u := params.com_parameters.getD 0 ⟨0, []⟩
  let param_h_v := params.com_parameters.getD 1 ⟨0, []⟩
  let param_key := params.com_parameters.getD 2 ⟨0, []⟩
  if proof.commitments.length < 5 then .panic "index out of bounds" else
  let com_A := proof.commitments.getD 0 0
  let com_B := proof.commitments.getD 1 0
  let com_E := proof.commitments.getD 2 0
  let com_T1 := proof.commitments.getD 3 0
  let com_T2 := proof.commitments.getD 4 0
  let hist1 := hist0 ++ [TItem.point com_A, TItem.point com_B]
  let y := chal hist1
  let hist2 := hist1 ++ [TItem.scalar y]
  let z := chal hist2
  let hist3 := hist2 ++ [TItem.scalar z]
  let hist4 := hist3 ++ [TItem.point com_E, TItem.point com_T1, TItem.point com_T2]
  let h := hashStr params.message
  if h ≠ proof.digest then .panic "assertion failed" else
  let hist5 := hist4 ++ [TItem.str h]
  let x := chal hist5
  if proof.challenges.length < 3 then .panic "index out of bounds" else
  if ¬ (y = proof.challenges.getD 0 0 ∧ z = proof.challenges.getD 1 0 ∧
      x = proof.challenges.getD 2 0) then
    .err (.InvalidProof "invalid challenge value") else
  let vec_0n := List.replicate params.num_pub_inputs (0 : F)
  let vec_1n := List.replicate params.num_pub_inputs (1 : F)
  let powers_yn := generate_powers y params.num_pub_inputs
  let delta := inner_product vec_1n powers_yn * (z + z * z)
  match PedersenCommitmentScheme.commit param_h_v vec_0n proof.openings.hat_t with
  | .error e => .err (.CommitmentError e)
  | .ok l1a =>
  match PedersenCommitmentScheme.commit param_g_u vec_0n proof.openings.taux with
  | .error e => .err (.CommitmentError e)
  | .ok l1b =>
  let lhs1 := l1a + l1b
  match PedersenCommitmentScheme.commit param_h_v vec_0n delta with
  | .error e => .err (.CommitmentError e)
  | .ok r1a =>
  let rhs1 := r1a + x • com_T1 + (x * x) • com_T2
  if lhs1 ≠ rhs1 then .panic "step 1: T1, T2 checks fail" else
  if y = 0 then .panic "called unwrap on None" else
  let powers_yn_inverse := generate_powers y⁻¹ params.num_pub_inputs
  if proof.openings.zeta.length ≠ params.num_pub_inputs then
    .panic "Vectors must be of the same length" else
  let zeta_yn := hadamard_product proof.openings.zeta powers_yn_inverse
  let vec_z1n := List.replicate params.num_pub_inputs z
  match PedersenCommitmentScheme.commit param_g_u zeta_yn proof.openings.mu with
  | .error e => .err (.CommitmentError e)
  | .ok l2a =>
  match PedersenCommitmentScheme.commit param_h_v proof.openings.eta 0 with
  | .error e => .err (.CommitmentError e)
  | .ok l2b =>
  let lhs2 := l2a + l2b
  match PedersenCommitmentScheme.commit param_g_u vec_z1n 0 with
  | .error e => .err (.CommitmentError e)
  | .ok r2a =>
  match PedersenCommitmentScheme.commit param_h_v vec_z1n 0 with
  | .error e => .err (.CommitmentError e)
  | .ok r2b =>
  let rhs2 := com_A + x • com_B + r2a + r2b
  if lhs2 ≠ rhs2 then .panic "step 2: A,B checks fail" else
  let vec_z_yn := scalar_product powers_yn z
  if params.vec_pk.length ≠ proof.openings.zeta.length then .panic "called unwrap on Err" else
  let lhs3 := msm params.vec_pk proof.openings.zeta
  match PedersenCommitmentScheme.commit param_key [proof.openings.fs] 0 with
  | .error e => .err (.CommitmentError e)
  | .ok r3a =>
  if params.vec_pk.length ≠ vec_z_yn.length then .panic "called unwrap on Err" else
  let rhs3 := r3a + x • com_E + msm params.vec_pk vec_z_yn
  if lhs3 ≠ rhs3 then .panic "step 3: pk check fails" else
  if proof.openings.zeta.length ≠ proof.openings.eta.length then
    .panic "Vectors must be of the same length" else
  let t := inner_product proof.openings.zeta proof.openings.eta
  if proof.openings.hat_t ≠ t then .panic "step 4: hat_t check fails" else
  .ok true

end RingSigDefs

/-- C7: each masking vector of the ring-signature provers is ONE random
scalar repeated: the linear prover's `r₀`, `r₁` (draws 2, 3) and the
compressed prover's `r₀`..`r₃` (draws 4..7) are `vec![rand(rng); len]`
clones, so all entries of each vector coincide; the second block records
the replicated form itself. -/
theorem masking_vectors_single_draw {F : Type} [Field F] (rs : Nat → F) (len i j : Nat)
    (hi : i < len) (hj : j < len) :
    ((linear_vec_r0 rs len).getD i 0 = (linear_vec_r0 rs len).getD j 0 ∧
      (linear_vec_r1 rs len).getD i 0 = (linear_vec_r1 rs len).getD j 0 ∧
      (compressed_vec_r0 rs len).getD i 0 = (compressed_vec_r0 rs len).getD j 0 ∧
      (compressed_vec_r1 rs len).getD i 0 = (compressed_vec_r1 rs len).getD j 0 ∧
      (compressed_vec_r2 rs len).getD i 0 = (compressed_vec_r2 rs len).getD j 0 ∧
      (compressed_vec_r3 rs len).getD i 0 = (compressed_vec_r3 rs len).getD j 0) ∧
    (linear_vec_r0 rs len = List.replicate len (rs 2) ∧
      linear_vec_r1 rs len = List.replicate len (rs 3) ∧
      compressed_vec_r0 rs len = List.replicate len (rs 4) ∧
      compressed_vec_r1 rs len = List.replicate len (rs 5) ∧
      compressed_vec_r2 rs len = List.replicate len (rs 6) ∧
      compressed_vec_r3 rs len = List.replicate len (rs 7)) := by
  have hgd : ∀ (a : F) (m k : Nat), k < m → (List.replicate m a).getD k 0 = a := by
    intro a m k hk
    rw [List.getD_eq_getElem _ _ (by simpa using hk), List.getElem_replicate]
  refine ⟨⟨?_, ?_, ?_, ?_, ?_, ?_⟩, rfl, rfl, rfl, rfl, rfl, rfl⟩ <;>
    simp only [linear_vec_r0, linear_vec_r1, compressed_vec_r0, compressed_vec_r1,
      compressed_vec_r2, compressed_vec_r3] <;>
    rw [hgd _ _ _ hi, hgd _ _ _ hj]

/-- C7 witness: the first two entries of the linear `r₀` coincide at a
concrete draw stream over `ZMod 5`. -/
theorem masking_vectors_single_draw_witness :
    ((0 : Nat) < 2 ∧ (1 : Nat) < 2) ∧
    (linear_vec_r0 (fun n => (n : ZMod 5)) 2).getD 0 0 =
      (linear_vec_r0 (fun n => (n : ZMod 5)) 2).getD 1 0 :=
  ⟨⟨by decide, by decide⟩,
    (masking_vectors_single_draw (fun n => (n : ZMod 5)) 2 0 1 (by decide) (by decide)).1.1⟩

/-- Entry of a replicate-block followed by one element: the decoy below
the split point, the pushed element at it. -/
theorem getD_replicate_append {G : Type} [AddCommGroup G] (d x : G) (m i : Nat)
    (hi : i < m + 1) :
    (List.replicate m d ++ [x]).getD i 0 = if i < m then d else x := by
  rcases Nat.lt_or_ge i m with h | h
  · rw [if_pos h]
    rw [List.getD_eq_getElem _ _ (by simp; omega)]
    rw [List.getElem_append_left (by simpa using h)]
    exact List.getElem_replicate _ _
  · have him : i = m := by omega
    subst him
    rw [if_neg (by omega)]
    rw [List.getD_eq_getElem _ _ (by simp)]
    rw [List.getElem_append_right (by simp)]
    simp

/-- C6: in both ring-signature setups every ring entry is either the
single cloned decoy point (`vec![rand; s-1]`, resp. `vec![rand; 2s-1]`,
draws ONE point: `rp 6` in the linear variant, `rp 10` in the compressed
one) or the signer's key `commit(key_params, wit, 0)`, so the ring holds
at most two distinct public keys. -/
theorem ring_decoys_single_point {F : Type} [Field F] {G : Type} [AddCommGroup G]
    [Module F G] [DecidableEq F] [DecidableEq G]
    (rs : Nat → F) (rp : Nat → G) (gen0 : G) (sigma sigma2 : List Nat)
    (wit : List F) (msg : String) (s : Nat) (hs : 1 ≤ s)
    (hsig : ∀ i ∈ sigma, i < s) (hsig2 : ∀ i ∈ sigma2, i < 2 * s) :
    (∀ pw, linearSetup rs rp gen0 sigma wit msg s = .ok pw →
      ∀ p ∈ pw.1.vec_pk, p = rp 6 ∨
        p = (0 : F) • (rs 4 • gen0) + msm (List.replicate 1 (rp 5)) wit) ∧
    (∀ pw, compressedSetup rs rp gen0 sigma2 wit msg s = .ok pw →
      ∀ p ∈ pw.1.vec_pk, p = rp 10 ∨
        p = (0 : F) • (rs 8 • gen0) + msm (List.replicate 1 (rp 9)) wit) := by
  constructor
  · intro pw h p hp
    simp only [linearSetup, PedersenCommitmentScheme.setup,
      PedersenCommitmentScheme.commit] at h
    split at h
    · exact Except.noConfusion h
    · rename_i pk heq
      split at heq
      · exact Except.noConfusion heq
      · injection heq with heq
        injection h with h
        rw [← h] at hp
        simp only [shuffle, apply_permutation, List.mem_map] at hp
        obtain ⟨i, hi, rfl⟩ := hp
        have his : i < s := hsig i hi
        rw [getD_replicate_append _ _ _ _ (by omega)]
        by_cases hlt : i < s - 1
        · rw [if_pos hlt]; left; rfl
        · rw [if_neg hlt]; right; rw [← heq]
  · intro pw h p hp
    simp only [compressedSetup, PedersenCommitmentScheme.setup,
      PedersenCommitmentScheme.commit] at h
    split at h
    · exact Except.noConfusion h
    · rename_i pk heq
      split at heq
      · exact Except.noConfusion heq
      · injection heq with heq
        injection h with h
        rw [← h] at hp
        simp only [shuffle, apply_permutation, List.mem_map] at hp
        obtain ⟨i, hi, rfl⟩ := hp
        have his : i < 2 * s := hsig2 i hi
        rw [getD_replicate_append _ _ _ _ (by omega)]
        by_cases hlt : i < 2 * s - 1
        · rw [if_pos hlt]; left; rfl
        · rw [if_neg hlt]; right; rw [← heq]

/-- C6 witness: a concrete linear setup over `ZMod 5` with ring size 2
whose ring entries are the cloned decoy or the signer key. -/
theorem ring_decoys_single_point_witness :
    ((1 : Nat) ≤ 2 ∧ (∀ i ∈ ([1, 0] : List Nat), i < 2) ∧
      (∀ i ∈ ([3, 0, 1, 2] : List Nat), i < 2 * 2)) ∧
    (∀ pw, linearSetup (fun n => (n : ZMod 5)) (fun n => (n : ZMod 5)) 1 [1, 0]
        [(3 : ZMod 5)] "m" 2 = .ok pw →
      ∀ p ∈ pw.1.vec_pk, p = (fun n => (n : ZMod 5)) 6 ∨
        p = (0 : ZMod 5) • ((fun n => (n : ZMod 5)) 4 • (1 : ZMod 5)) +
          msm (List.replicate 1 ((fun n => (n : ZMod 5)) 5)) [(3 : ZMod 5)]) :=
  ⟨⟨by decide, by decide, by decide⟩,
    (ring_decoys_single_point (fun n => (n : ZMod 5)) (fun n => (n : ZMod 5)) 1 [1, 0]
      [3, 0, 1, 2] [(3 : ZMod 5)] "m" 2 (by decide) (by decide) (by decide)).1⟩

/-- C8: whenever the linear prover succeeds, the round-4 openings of the
returned signature satisfy the claimed formulas in terms of the
transcript challenges `y = challenges[0]`, `z = challenges[1]`,
`x = challenges[2]` and the prover's randomness (`r₀ = linear_vec_r0`,
`r₁ = linear_vec_r1`, `τ₁ = rs 5`, `τ₂ = rs 6`, `α = rs 0`, `β = rs 1`):
`ζ = (b₀ + z·1ⁿ + r₀·x) ∘ yⁿ`, `η = b₁ + z·1ⁿ + r₁·x`, `t̂ = ⟨ζ, η⟩`,
`τ_x = τ₁·x + τ₂·x²`, `μ = α + β·x`. -/
theorem linear_prover_openings {F : Type} [Field F] {G : Type} [AddCommGroup G]
    [Module F G] [DecidableEq F] [DecidableEq G]
    (rs : Nat → F) (chal : List (TItem F G) → F) (hashStr : String → String)
    (params : RingSignatureParams F G) (wit : List F)
    (sig : LinearRingSignature F G)
    (hok : linearProve rs chal hashStr params wit = .ok sig) :
    sig.openings.zeta = hadamard_product
        (vec_add (wit.drop (wit.length - params.num_pub_inputs))
          (vec_add (List.replicate params.num_pub_inputs (sig.challenges.getD 1 0))
            (scalar_product
              (linear_vec_r0 rs (wit.drop (wit.length - params.num_pub_inputs)).length)
              (sig.challenges.getD 2 0))))
        (generate_powers (sig.challenges.getD 0 0) params.num_pub_inputs) ∧
    sig.openings.eta = vec_add
        ((wit.drop (wit.length - params.num_pub_inputs)).map (fun b => 1 - b))
        (vec_add (List.replicate params.num_pub_inputs (sig.challenges.getD 1 0))
          (scalar_product
            (linear_vec_r1 rs (wit.drop (wit.length - params.num_pub_inputs)).length)
            (sig.challenges.getD 2 0))) ∧
    sig.openings.hat_t = inner_product sig.openings.zeta sig.openings.eta ∧
    sig.openings.taux = rs 5 * sig.challenges.getD 2 0 +
      rs 6 * (sig.challenges.getD 2 0 * sig.challenges.getD 2 0) ∧
    sig.openings.mu = rs 0 + rs 1 * sig.challenges.getD 2 0 := by
  simp only [linearProve] at hok
  repeat' split at hok
  all_goals try exact RunResult.noConfusion hok
  injection hok with hok
  subst hok
  simp only [List.getD_cons_zero, List.getD_cons_succ, List.length_map, mul_assoc]
  exact ⟨trivial, trivial, trivial, trivial, trivial⟩

/-- Concrete ring-signature parameters for the C8 witness (ring size 1
over `ZMod 5`). -/
def c8params : RingSignatureParams (ZMod 5) (ZMod 5) :=
  ⟨2, 1, [⟨1, [2]⟩, ⟨3, [4]⟩, ⟨2, [3]⟩], "m", [2]⟩

/-- Concrete witness vector (`vec_sk = [3]`, `vec_b = [1]`). -/
def c8wit : List (ZMod 5) := [3, 1]

/-- Concrete draw stream for the C8 witness. -/
def c8rs : Nat → ZMod 5 := fun n => (n : ZMod 5)

/-- The signature produced by the concrete C8 prover run. -/
def c8sig : LinearRingSignature (ZMod 5) (ZMod 5) :=
  match linearProve c8rs (fun _ => 1) (fun s => s) c8params c8wit with
  | .ok s => s
  | _ => ⟨[], ⟨[], [], 0, 0, 0, 0⟩, [], ""⟩

/-- C8 witness: the concrete prover run succeeds and its `μ` opening
follows the claimed formula. -/
theorem linear_prover_openings_witness :
    linearProve c8rs (fun _ => (1 : ZMod 5)) (fun s => s) c8params c8wit = .ok c8sig ∧
    c8sig.openings.mu = c8rs 0 + c8rs 1 * c8sig.challenges.getD 2 0 :=
  ⟨by decide, (linear_prover_openings c8rs (fun _ => 1) (fun s => s) c8params c8wit c8sig
    (by decide)).2.2.2.2⟩

set_option maxHeartbeats 1600000 in
/-- C3 (corrected): the linear verifier does NOT conflate all failing
sub-checks into `InvalidProof`.  (1) The only `InvalidProof` error it can
return is the challenge cross-check's `"invalid challenge value"`;
(2) a digest mismatch aborts with an unlabelled `assert_eq!` panic
(before the challenge comparison); (3) a challenge mismatch is the
`InvalidProof` rejection; (4) a failing T1/T2 check aborts with the
labelled panic `"step 1: T1, T2 checks fail"` — a distinguishable
outcome per sub-check. -/
theorem linear_verify_outcomes {F : Type} [Field F] {G : Type} [AddCommGroup G]
    [Module F G] [DecidableEq F] [DecidableEq G]
    (chal : List (TItem F G) → F) (hashStr : String → String)
    (params : RingSignatureParams F G) (proof : LinearRingSignature F G)
    (com_A com_B com_E com_T1 com_T2 : G) (y z x : F) (pgu phv : PedersenParams G)
    (hA : com_A = proof.commitments.getD 0 0)
    (hB : com_B = proof.commitments.getD 1 0)
    (hE : com_E = proof.commitments.getD 2 0)
    (hT1 : com_T1 = proof.commitments.getD 3 0)
    (hT2 : com_T2 = proof.commitments.getD 4 0)
    (hy : y = chal (params.vec_pk.map TItem.point ++
      [TItem.point com_A, TItem.point com_B]))
    (hz : z = chal (params.vec_pk.map TItem.point ++
      [TItem.point com_A, TItem.point com_B] ++ [TItem.scalar y]))
    (hx : x = chal (params.vec_pk.map TItem.point ++
      [TItem.point com_A, TItem.point com_B] ++ [TItem.scalar y] ++ [TItem.scalar z] ++
      [TItem.point com_E, TItem.point com_T1, TItem.point com_T2] ++
      [TItem.str (hashStr params.message)]))
    (hgu : pgu = params.com_parameters.getD 0 ⟨0, []⟩)
    (hhv : phv = params.com_parameters.getD 1 ⟨0, []⟩)
    (hc : ¬ params.com_parameters.length < 3)
    (hcm : ¬ proof.commitments.length < 5) :
    (∀ s, linearVerify chal hashStr params proof = .err (.InvalidProof s) →
      s = "invalid challenge value") ∧
    (hashStr params.message ≠ proof.digest →
      linearVerify chal hashStr params proof = .panic "assertion failed") ∧
    (hashStr params.message = proof.digest → ¬ proof.challenges.length < 3 →
      ¬ (y = proof.challenges.getD 0 0 ∧ z = proof.challenges.getD 1 0 ∧
          x = proof.challenges.getD 2 0) →
      linearVerify chal hashStr params proof =
        .err (.InvalidProof "invalid challenge value")) ∧
    (hashStr params.message = proof.digest → ¬ proof.challenges.length < 3 →
      (y = proof.challenges.getD 0 0 ∧ z = proof.challenges.getD 1 0 ∧
        x = proof.challenges.getD 2 0) →
      phv.vec_g.length = params.num_pub_inputs →
      pgu.vec_g.length = params.num_pub_inputs →
      proof.openings.hat_t • phv.h +
          msm phv.vec_g (List.replicate params.num_pub_inputs (0 : F)) +
          (proof.openings.taux • pgu.h +
            msm pgu.vec_g (List.replicate params.num_pub_inputs (0 : F))) ≠
        (inner_product (List.replicate params.num_pub_inputs (1 : F))
              (generate_powers y params.num_pub_inputs) * (z + z * z)) • phv.h +
            msm phv.vec_g (List.replicate params.num_pub_inputs (0 : F)) +
          x • com_T1 + (x * x) • com_T2 →
      linearVerify chal hashStr params proof = .panic "step 1: T1, T2 checks fail") := by
  subst hA hB hE hT1 hT2
  have hcom : ∀ (pp : PedersenParams G) (m : List F) (r : F),
      m.length = pp.vec_g.length →
      PedersenCommitmentScheme.commit pp m r = .ok (r • pp.h + msm pp.vec_g m) := by
    intro pp m r hlen
    simp [PedersenCommitmentScheme.commit, hlen]
  refine ⟨?_, ?_, ?_, ?_⟩
  · intro s hs
    simp only [linearVerify] at hs
    rw [← hy, ← hz, ← hx, ← hgu, ← hhv] at hs
    generalize PedersenCommitmentScheme.commit phv
      (List.replicate params.num_pub_inputs (0 : F)) proof.openings.hat_t = c1 at hs
    generalize PedersenCommitmentScheme.commit pgu
      (List.replicate params.num_pub_inputs (0 : F)) proof.openings.taux = c2 at hs
    generalize PedersenCommitmentScheme.commit phv
      (List.replicate params.num_pub_inputs (0 : F))
      (inner_product (List.replicate params.num_pub_inputs (1 : F))
        (generate_powers y params.num_pub_inputs) * (z + z * z)) = c3 at hs
    generalize PedersenCommitmentScheme.commit pgu
      (hadamard_product proof.openings.zeta
        (generate_powers y⁻¹ params.num_pub_inputs)) proof.openings.mu = c4 at hs
    generalize PedersenCommitmentScheme.commit phv proof.openings.eta 0 = c5 at hs
    generalize PedersenCommitmentScheme.commit pgu
      (List.replicate params.num_pub_inputs z) 0 = c6 at hs
    generalize PedersenCommitmentScheme.commit phv
      (List.replicate params.num_pub_inputs z) 0 = c7 at hs
    generalize PedersenCommitmentScheme.commit
      (params.com_parameters.getD 2 ⟨0, []⟩) [proof.openings.fs] 0 = c8 at hs
    by_cases h1 : params.com_parameters.length < 3
    · rw [if_pos h1] at hs
      exact RunResult.noConfusion hs
    rw [if_neg h1] at hs
    by_cases h2 : proof.commitments.length < 5
    · rw [if_pos h2] at hs
      exact RunResult.noConfusion hs
    rw [if_neg h2] at hs
    by_cases h3 : hashStr params.message ≠ proof.digest
    · rw [if_pos h3] at hs
      exact RunResult.noConfusion hs
    rw [if_neg h3] at hs
    by_cases h4 : proof.challenges.length < 3
    · rw [if_pos h4] at hs
      exact RunResult.noConfusion hs
    rw [if_neg h4] at hs
    by_cases h5 : ¬ (y = proof.challenges.getD 0 0 ∧ z = proof.challenges.getD 1 0 ∧
        x = proof.challenges.getD 2 0)
    · rw [if_pos h5] at hs
      injection hs with hs
      injection hs with hs
      exact hs.symm
    rw [if_neg h5] at hs
    rcases c1 with e | l1a
    · injection hs with hs
      exact SigmaErrors.noConfusion hs
    dsimp only at hs
    rcases c2 with e | l1b
    · injection hs with hs
      exact SigmaErrors.noConfusion hs
    dsimp only at hs
    rcases c3 with e | r1a
    · injection hs with hs
      exact SigmaErrors.noConfusion hs
    dsimp only at hs
    by_cases h6 : l1a + l1b ≠ r1a + x • proof.commitments.getD 3 0 +
        (x * x) • proof.commitments.getD 4 0
    · rw [if_pos h6] at hs
      exact RunResult.noConfusion hs
    rw [if_neg h6] at hs
    by_cases h7 : y = 0
    · rw [if_pos h7] at hs
      exact RunResult.noConfusion hs
    rw [if_neg h7] at hs
    by_cases h8 : proof.openings.zeta.length ≠ params.num_pub_inputs
    · rw [if_pos h8] at hs
      exact RunResult.noConfusion hs
    rw [if_neg h8] at hs
    rcases c4 with e | l2a
    · injection hs with hs
      exact SigmaErrors.noConfusion hs
    dsimp only at hs
    rcases c5 with e | l2b
    · injection hs with hs
      exact SigmaErrors.noConfusion hs
    dsimp only at hs
    rcases c6 with e | r2a
    · injection hs with hs
      exact SigmaErrors.noConfusion hs
    dsimp only at hs
    rcases c7 with e | r2b
    · injection hs with hs
      exact SigmaErrors.noConfusion hs
    dsimp only at hs
    by_cases h9 : l2a + l2b ≠ proof.commitments.getD 0 0 +
        x • proof.commitments.getD 1 0 + r2a + r2b
    · rw [if_pos h9] at hs
      exact RunResult.noConfusion hs
    rw [if_neg h9] at hs
    by_cases h10 : params.vec_pk.length ≠ proof.openings.zeta.length
    · rw [if_pos h10] at hs
      exact RunResult.noConfusion hs
    rw [if_neg h10] at hs
    rcases c8 with e | r3a
    · injection hs with hs
      exact SigmaErrors.noConfusion hs
    dsimp only at hs
    by_cases h11 : params.vec_pk.length ≠
        (scalar_product (generate_powers y params.num_pub_inputs) z).length
    · rw [if_pos h11] at hs
      exact RunResult.noConfusion hs
    rw [if_neg h11] at hs
    by_cases h12 : msm params.vec_pk proof.openings.zeta ≠ r3a +
        x • proof.commitments.getD 2 0 +
        msm params.vec_pk (scalar_product (generate_powers y params.num_pub_inputs) z)
    · rw [if_pos h12] at hs
      exact RunResult.noConfusion hs
    rw [if_neg h12] at hs
    by_cases h13 : proof.openings.zeta.length ≠ proof.openings.eta.length
    · rw [if_pos h13] at hs
      exact RunResult.noConfusion hs
    rw [if_neg h13] at hs
    by_cases h14 : proof.openings.hat_t ≠
        inner_product proof.openings.zeta proof.openings.eta
    · rw [if_pos h14] at hs
      exact RunResult.noConfusion hs
    rw [if_neg h14] at hs
    exact RunResult.noConfusion hs
  · intro hd
    simp only [linearVerify]
    rw [if_neg hc, if_neg hcm, if_pos hd]
  · intro hd hch hmis
    simp only [linearVerify]
    rw [← hy, ← hz, ← hx]
    rw [if_neg hc, if_neg hcm, if_neg (not_not_intro hd), if_neg hch, if_pos hmis]
  · intro hd hch hmatch hlv hlu hne
    simp only [linearVerify]
    rw [← hy, ← hz, ← hx, ← hgu, ← hhv]
    rw [if_neg hc, if_neg hcm, if_neg (not_not_intro hd), if_neg hch,
      if_neg (not_not_intro hmatch)]
    simp only [hcom, List.length_replicate, hlv, hlu]
    rw [if_pos hne]

/-- Concrete ring-signature parameters for the C3 instances. -/
def c3params : RingSignatureParams (ZMod 5) (ZMod 5) :=
  ⟨0, 1, [⟨0, [0]⟩, ⟨0, [0]⟩, ⟨0, [0]⟩], "m", [0]⟩

/-- A proof whose digest does not match the message hash. -/
def c3proof : LinearRingSignature (ZMod 5) (ZMod 5) :=
  ⟨[0, 0, 0, 0, 0], ⟨[], [], 0, 0, 0, 0⟩, [], "x"⟩

/-- A proof with matching digest but mismatching challenge entries. -/
def c3proof2 : LinearRingSignature (ZMod 5) (ZMod 5) :=
  ⟨[0, 0, 0, 0, 0], ⟨[], [], 0, 0, 0, 0⟩, [0, 0, 0], "m"⟩

/-- C3 counterexample: a failing digest sub-check makes the verifier
PANIC (`assert_eq!` abort) instead of returning the `InvalidProof` error
the claim requires for every failing sub-check. -/
theorem linear_verify_digest_counterexample :
    linearVerify (fun _ => (1 : ZMod 5)) (fun s => s) c3params c3proof =
      .panic "assertion failed" := by
  decide

/-- C3 witness: the challenge sub-check is the one that yields
`InvalidProof`, at a concrete instance. -/
theorem linear_verify_outcomes_witness :
    linearVerify (fun _ => (1 : ZMod 5)) (fun s => s) c3params c3proof2 =
      .err (.InvalidProof "invalid challenge value") :=
  (linear_verify_outcomes (fun _ => (1 : ZMod 5)) (fun s => s) c3params c3proof2
      0 0 0 0 0 1 1 1 ⟨0, [0]⟩ ⟨0, [0]⟩
      (by decide) (by decide) (by decide) (by decide) (by decide)
      rfl rfl rfl (by decide) (by decide) (by decide) (by decide)).2.2.1
    (by decide) (by decide) (by decide)
